import Mathlib

/-!
# The settings registry and the event queue of pfs (`settings.c`)

A shallow embedding of `src/settings.c`.  The global variables of the
translation unit (`fs_settings`, `events`, `setting_names`, `setting_stat`,
`settings_stat`, `names_init`) are the fields of `State`; every C function
becomes a Lean function that takes the state and returns the new one
together with its C results.

Conventions of the embedding:

* a C string is the list of its characters before the terminating NUL;
* `size_t` and `unsigned long` are 64 bits wide, `int` is 32 bits wide
  (LP64); a `size_t` value is a `Nat`, reduced modulo `2 ^ 64` wherever the
  C code converts into it;
* the memory region `(ptr, sz)` of an event is the list of the `sz` bytes
  at `ptr`, so `ptr += n; sz -= n` is `List.drop n`;
* the singly linked list `events` with its tail pointer `lastevent` is a
  `List event`: `*lastevent = e` appends at the end;
* `time_t` is the 64-bit signed `long`: a clock value is an `Int` between
  `LONG_MIN` and `LONG_MAX`, and `tm-EVENT_EXPIRE` wraps like the machine
  subtraction;
* the build is the POSIX one (`st_blocks` and `st_blksize` are assigned);
* the mutex is not modelled: every function runs as one atomic step.
-/

namespace Pfs

/-- A C string: the characters before the terminating NUL. -/
abbrev CStr := List Char

/-! ## The C library functions used by `settings.c` -/

/-- The C locale `isspace`: space, and `\t \n \v \f \r` (codes 9 to 13). -/
def isspace (c : Char) : Bool :=
  c.toNat = 32 || (9 ≤ c.toNat && c.toNat ≤ 13)

/-- The C locale `isdigit`: the characters `0` to `9` (codes 48 to 57). -/
def isdigit (c : Char) : Bool :=
  48 ≤ c.toNat && c.toNat ≤ 57

/-- The digit loop of `strtol` in base 10: accumulate decimal digits until
the first character that is not a digit (or the end of the string). -/
def strtol_digits (acc : Nat) : CStr → Nat
  | [] => acc
  | c :: cs =>
    if isdigit c then strtol_digits (acc * 10 + (c.toNat - 48)) cs else acc

/-- The leading white space that `strtol` skips. -/
def skip_space : CStr → CStr
  | [] => []
  | c :: cs => if isspace c then skip_space cs else c :: cs

def LONG_MAX : Int := 2 ^ 63 - 1

def LONG_MIN : Int := -(2 ^ 63)

/-- The sign and digits part of `strtol`, after the white space: an optional
`+` or `-`, then the digits; a value out of the range of `long` is clamped
to `LONG_MAX` or `LONG_MIN`. -/
def strtol_signed : CStr → Int
  | [] => 0
  | c :: cs =>
    if c = '-' then max LONG_MIN (-(strtol_digits 0 cs : Int))
    else if c = '+' then min LONG_MAX (strtol_digits 0 cs : Int)
    else min LONG_MAX (strtol_digits 0 (c :: cs) : Int)

/-- The function `atol(str)`, which is `strtol(str, NULL, 10)`: text with no
leading number converts to `0`. -/
def atol (str : CStr) : Int :=
  strtol_signed (skip_space str)

/-- Conversion of a `long` to `size_t`: reduction modulo `2 ^ 64`. -/
def to_size_t (x : Int) : Nat :=
  (x % 2 ^ 64).toNat

/-- The function `atoi(str)`: `(int) strtol(str, NULL, 10)`, the low 32 bits
of the `long` read as a signed `int`. -/
def atoi (str : CStr) : Int :=
  (atol str + 2 ^ 31) % 2 ^ 32 - 2 ^ 31

/-- The character of a decimal digit `d < 10`. -/
def digit_char (d : Nat) : Char :=
  Char.ofNat (48 + d)

/-- The digits of `n`, most significant first, in front of `acc`; `fuel`
bounds the number of digits produced. -/
def lu_digits : Nat → Nat → List Char → List Char
  | 0, _, acc => acc
  | fuel + 1, n, acc =>
    if n / 10 = 0 then digit_char (n % 10) :: acc
    else lu_digits fuel (n / 10) (digit_char (n % 10) :: acc)

/-- The conversion `%lu` of `printf`: the decimal digits of an
`unsigned long`, which has at most 20 of them. -/
def fmt_lu (n : Nat) : List Char :=
  lu_digits 20 (n % 2 ^ 64) []

/-- The call `snprintf(data, size, "%lu\n", num)`: the bytes stored into
`data` (at most `size - 1` characters of the text and a NUL, nothing when
`size` is 0) and the returned value, the length of the whole text. -/
def snprintf_lu (size : Nat) (num : Nat) : List Char × Nat :=
  let text := fmt_lu num ++ ['\n']
  (if size = 0 then [] else text.take (size - 1) ++ [Char.ofNat 0], text.length)

/-! ## Constants and data -/

def EINVAL : Int := 22

def ENOENT : Int := 2

def EVENT_EXPIRE : Int := 3600

/-- The number of rows of the table `settings[]`. -/
abbrev SETTINGSCNT : Nat := 7

/-- The mode `S_IFREG | 0644`. -/
def S_IFREG_0644 : Nat := 0o100000 ||| 0o644

/-- The mode `S_IFDIR | 0755`. -/
def S_IFDIR_0755 : Nat := 0o040000 ||| 0o755

/-- The macros and globals that `settings.c` takes from `common.h`, which is
not part of the sources at hand: they are parameters of the embedding. -/
structure Env where
  MAX_CACHE_SIZE : Nat
  FS_BLOCK_SIZE : Nat
  myuid : Nat
  mygid : Nat
deriving DecidableEq

/-- Modelled from the spec: the declaration of the global `fs_settings` is in
`common.h`, outside the sources at hand; the spec calls its members "simple
machine words" and the code moves them as `size_t` (`usessl` as an int
flag). -/
structure pfs_settings where
  pagesize : Nat
  cachesize : Nat
  readaheadmin : Nat
  readaheadmax : Nat
  readaheadmaxsec : Nat
  usessl : Int
deriving DecidableEq

/-- The members of `struct stat` that `settings.c` assigns; the others stay
zero after the `memset`. -/
structure stat where
  st_ctime : Int
  st_mtime : Int
  st_mode : Nat
  st_nlink : Nat
  st_size : Nat
  st_blocks : Nat
  st_blksize : Nat
  st_uid : Nat
  st_gid : Nat
deriving DecidableEq

/-- A zeroed `struct stat`. -/
def stat_zero : stat :=
  ⟨0, 0, 0, 0, 0, 0, 0, 0, 0⟩

/-- A node of the event queue: `ptr` is the list of the `sz` bytes not yet
read, `tm` the time of the append. -/
structure event where
  ptr : List Char
  tm : Int
deriving DecidableEq

/-- The member `sz` of an event: the number of bytes left at `ptr`. -/
def event.sz (e : event) : Nat :=
  e.ptr.length

/-- The globals of `settings.c`, with `cache_resets` counting the calls of
the external `reset_cache`. -/
structure State where
  fs_settings : pfs_settings
  events : List event
  setting_names : Fin (SETTINGSCNT + 1) → Option CStr
  setting_stat : Fin SETTINGSCNT → stat
  settings_stat : stat
  names_init : Int
  cache_resets : Nat

/-- What a getter leaves behind: the state, the bytes it stored into `data`
and the value it stored into `*sz`. -/
structure get_out where
  state : State
  data : List Char
  sz : Nat

/-- A row of the table `settings[]`. -/
structure setting where
  name : CStr
  get : State → Nat → get_out
  set : Env → CStr → Nat → State → Int × State
  support_stat : Bool

/-! ## Getters and setters -/

/-- Modelled from the spec: `reset_cache` is defined outside the sources at
hand; the spec describes it as a signal to the cache collaborator, which
is counted here. -/
def reset_cache (s : State) : State :=
  { s with cache_resets := s.cache_resets + 1 }

def setting_get_size_t (s : State) (sz : Nat) (num : Nat) : get_out :=
  ⟨s, (snprintf_lu sz num).1, (snprintf_lu sz num).2⟩

def setting_get_bool (s : State) (b : Int) : get_out :=
  ⟨s, [if b ≠ 0 then '1' else '0', '\n', Char.ofNat 0], 2⟩

def get_page_size (s : State) (sz : Nat) : get_out :=
  setting_get_size_t s sz s.fs_settings.pagesize

def set_page_size (_env : Env) (str : CStr) (_len : Nat) (s : State) : Int × State :=
  let sz := to_size_t (atol str)
  if sz < 1024 || sz > 4 * 1024 * 1024 || (sz &&& (sz - 1)) != 0 then
    (-EINVAL, s)
  else
    (0, reset_cache { s with fs_settings := { s.fs_settings with pagesize := sz } })

def get_cache_size (s : State) (sz : Nat) : get_out :=
  setting_get_size_t s sz s.fs_settings.cachesize

def set_cache_size (env : Env) (str : CStr) (_len : Nat) (s : State) : Int × State :=
  let sz := to_size_t (atol str)
  if sz < s.fs_settings.pagesize * 4 % 2 ^ 64 then
    (-EINVAL, s)
  else if sz > env.MAX_CACHE_SIZE then
    (-EINVAL, s)
  else
    (0, reset_cache { s with fs_settings := { s.fs_settings with cachesize := sz } })

def get_readahead_min (s : State) (sz : Nat) : get_out :=
  setting_get_size_t s sz s.fs_settings.readaheadmin

def set_readahead_min (_env : Env) (str : CStr) (_len : Nat) (s : State) : Int × State :=
  let sz := to_size_t (atol str)
  if sz > s.fs_settings.readaheadmax then
    (-EINVAL, s)
  else
    (0, { s with fs_settings := { s.fs_settings with readaheadmin := sz } })

def get_readahead_max (s : State) (sz : Nat) : get_out :=
  setting_get_size_t s sz s.fs_settings.readaheadmax

def set_readahead_max (_env : Env) (str : CStr) (_len : Nat) (s : State) : Int × State :=
  let sz := to_size_t (atol str)
  if sz < s.fs_settings.readaheadmin then
    (-EINVAL, s)
  else
    (0, { s with fs_settings := { s.fs_settings with readaheadmax := sz } })

def get_readahead_max_sec (s : State) (sz : Nat) : get_out :=
  setting_get_size_t s sz s.fs_settings.readaheadmaxsec

def set_readahead_max_sec (_env : Env) (str : CStr) (_len : Nat) (s : State) : Int × State :=
  let sz := to_size_t (atol str)
  (0, { s with fs_settings := { s.fs_settings with readaheadmaxsec := sz } })

def get_use_ssl (s : State) (_sz : Nat) : get_out :=
  setting_get_bool s s.fs_settings.usessl

def set_use_ssl (_env : Env) (str : CStr) (_len : Nat) (s : State) : Int × State :=
  (0, { s with fs_settings := { s.fs_settings with usessl := if atoi str ≠ 0 then 1 else 0 } })

/-- The column `name` of the table `settings[]`. -/
def setting_name : Fin SETTINGSCNT → CStr :=
  !["page_size".toList, "cache_size".toList, "readahead_min".toList,
    "readahead_max".toList, "readahead_max_sec".toList, "use_ssl".toList,
    "events".toList]

/-- The loop of `get_setting_id`: the first row whose name equals `name`
(`strcmp` returns 0), or `none` for the C result `-1`. -/
def get_setting_id (name : CStr) : Option (Fin SETTINGSCNT) :=
  (List.finRange SETTINGSCNT).find? (fun i => decide (name = setting_name i))

def update_events_stat (s : State) : State :=
  match get_setting_id "events".toList with
  | some id =>
    let sz := match s.events with
      | e :: _ => e.sz
      | [] => 0
    let st : stat := { (s.setting_stat id) with st_size := sz, st_blocks := (sz + 511) / 512 }
    { s with setting_stat := Function.update s.setting_stat id st }
  | none => s

def get_events (s : State) (sz : Nat) : get_out :=
  match s.events with
  | e :: rest =>
    if e.sz ≤ sz then
      ⟨update_events_stat { s with events := rest }, e.ptr, e.sz⟩
    else
      ⟨update_events_stat { s with events := ({ e with ptr := e.ptr.drop sz } : event) :: rest },
        e.ptr.take sz, sz⟩
  | [] => ⟨update_events_stat s, [], 0⟩

def set_events (_env : Env) (_str : CStr) (_len : Nat) (s : State) : Int × State :=
  (-EINVAL, s)

/-- The table `settings[]`. -/
def settings : Fin SETTINGSCNT → setting :=
  ![⟨setting_name 0, get_page_size, set_page_size, true⟩,
    ⟨setting_name 1, get_cache_size, set_cache_size, true⟩,
    ⟨setting_name 2, get_readahead_min, set_readahead_min, true⟩,
    ⟨setting_name 3, get_readahead_max, set_readahead_max, true⟩,
    ⟨setting_name 4, get_readahead_max_sec, set_readahead_max_sec, true⟩,
    ⟨setting_name 5, get_use_ssl, set_use_ssl, true⟩,
    ⟨setting_name 6, get_events, set_events, false⟩]

/-! ## The metadata store -/

/-- One turn of the `for` loop of `init_settings`, for the row `i`; `tm` is
the time read at the start of `init_settings`. -/
def init_settings_row (env : Env) (tm : Int) (s : State) (i : Fin SETTINGSCNT) : State :=
  let s1 : State :=
    { s with setting_names := Function.update s.setting_names i.castSucc (some (settings i).name) }
  let r : get_out := if (settings i).support_stat then (settings i).get s1 1024 else ⟨s1, [], 0⟩
  let st : stat :=
    { st_ctime := tm, st_mtime := tm, st_mode := S_IFREG_0644, st_nlink := 1,
      st_size := r.sz, st_blocks := (r.sz + 511) / 512, st_blksize := env.FS_BLOCK_SIZE,
      st_uid := env.myuid, st_gid := env.mygid }
  { r.state with setting_stat := Function.update r.state.setting_stat i st }

def init_settings (env : Env) (tm : Int) (s : State) : State :=
  let s0 : State := { s with setting_stat := fun _ => stat_zero, settings_stat := stat_zero }
  let s1 : State := (List.finRange SETTINGSCNT).foldl (init_settings_row env tm) s0
  let s2 : State :=
    { s1 with setting_names := Function.update s1.setting_names (Fin.last SETTINGSCNT) none }
  let dir : stat :=
    { st_ctime := tm, st_mtime := tm, st_mode := S_IFDIR_0755, st_nlink := 2,
      st_size := SETTINGSCNT, st_blocks := (SETTINGSCNT + 511) / 512,
      st_blksize := env.FS_BLOCK_SIZE, st_uid := env.myuid, st_gid := env.mygid }
  let s3 : State := { s2 with settings_stat := dir }
  let s4 : State := update_events_stat s3
  { s4 with names_init := 1 }

/-- The function `list_settings`: the state and the array it returns; `tm`
is the clock value that `init_settings` reads when it runs. -/
def list_settings (env : Env) (tm : Int) (s : State) :
    State × (Fin (SETTINGSCNT + 1) → Option CStr) :=
  let s1 := if s.names_init = 0 then init_settings env tm s else s
  (s1, s1.setting_names)

/-- The pointer that `get_setting_stat` returns. -/
inductive stat_ptr where
  | NULL : stat_ptr
  | setting_stat : Fin SETTINGSCNT → stat_ptr
  | settings_stat : stat_ptr
deriving DecidableEq

/-- The record a `stat_ptr` points to in a state. -/
def stat_ptr.deref (s : State) : stat_ptr → Option stat
  | .NULL => none
  | .setting_stat id => some (s.setting_stat id)
  | .settings_stat => some s.settings_stat

def get_setting_stat (env : Env) (tm : Int) (name : CStr) (s : State) : State × stat_ptr :=
  let s1 := if s.names_init = 0 then init_settings env tm s else s
  match name with
  | _ :: name1 =>
    match get_setting_id name1 with
    | some id => (s1, .setting_stat id)
    | none => (s1, .NULL)
  | [] => (s1, .settings_stat)

/-! ## The registry -/

def set_setting (env : Env) (name : CStr) (val : CStr) (vallen : Nat) (s : State) :
    Int × State :=
  match get_setting_id name with
  | some id =>
    let r := (settings id).set env val vallen s
    if r.1 = 0 then
      let g := (settings id).get r.2 4096
      let st : stat :=
        { (g.state.setting_stat id) with st_size := g.sz, st_blocks := (g.sz + 511) / 512 }
      (r.1, { g.state with setting_stat := Function.update g.state.setting_stat id st })
    else
      (r.1, r.2)
  | none => (-ENOENT, s)

/-- The function `get_setting`; `vallen` is the value of `*vallen` at the
call, the capacity of `val`. -/
def get_setting (name : CStr) (vallen : Nat) (s : State) : Int × get_out :=
  match get_setting_id name with
  | some id => (0, (settings id).get s vallen)
  | none => (-ENOENT, ⟨s, [], vallen⟩)

/-! ## The event queue -/

/-- The bytes the copy loop of `event_writev` stores: the parts of `iov` one
after the other. -/
def iov_concat : List (List Char) → List Char
  | [] => []
  | p :: ps => p ++ iov_concat ps

/-- The `time_t` value of `tm-EVENT_EXPIRE` in the test of the `while` loop:
the subtraction is done in 64 bits, two's complement, so it wraps to a
large positive value when `tm` is less than `LONG_MIN + EVENT_EXPIRE`. -/
def expire_before (tm : Int) : Int :=
  (tm - EVENT_EXPIRE + 2 ^ 63) % 2 ^ 64 - 2 ^ 63

/-- The `while` loop of `event_writev`; `none` stands for reading
`events->tm` through a NULL `events`. -/
def expire_loop (tm : Int) : List event → Option (List event)
  | [] => none
  | e :: rest => if e.tm < expire_before tm then expire_loop tm rest else some (e :: rest)

/-- The function `event_writev`; `tm` is the clock value it reads. -/
def event_writev (iov : List (List Char)) (tm : Int) (s : State) : Option State :=
  let e : event := ⟨iov_concat iov, tm⟩
  match expire_loop tm (s.events ++ [e]) with
  | some q => some (update_events_stat { s with events := q })
  | none => none

/-- The states the program reaches once `init_settings` has run, by
calls of the functions of the interface. -/
inductive Reachable (env : Env) : State → Prop where
  | init (tm : Int) (s0 : State) : Reachable env (init_settings env tm s0)
  | set_setting (name val : CStr) (vallen : Nat) (s : State) :
      Reachable env s → Reachable env (set_setting env name val vallen s).2
  | get_setting (name : CStr) (vallen : Nat) (s : State) :
      Reachable env s → Reachable env (get_setting name vallen s).2.state
  | event_writev (iov : List (List Char)) (tm : Int) (s s1 : State) :
      Reachable env s → event_writev iov tm s = some s1 → Reachable env s1

/-! ## Runs of the interface and notions used to state properties -/

/-- The bytes a queue still holds, head first. -/
def queue_bytes : List event → List Char
  | [] => []
  | e :: q => e.ptr ++ queue_bytes q

/-- The remaining length of the head event, 0 for the empty queue. -/
def head_sz : List event → Nat
  | [] => 0
  | e :: _ => e.sz

/-- The test of the `while` loop of `event_writev` on one event. -/
def expired (tm : Int) (e : event) : Bool :=
  decide (e.tm < expire_before tm)

/-- A call of the interface of `settings.c`; `tm` is the clock value that
`event_writev` reads. -/
inductive call where
  | set_setting (name val : CStr) (vallen : Nat) : call
  | get_setting (name : CStr) (vallen : Nat) : call
  | event_writev (iov : List (List Char)) (tm : Int) : call

/-- Runs calls one after the other: the bytes that the reads of `events`
returned, in order, and the final state; `none` when an `event_writev`
reads through a NULL `events`. -/
def run_calls (env : Env) : List call → State → Option (List Char × State)
  | [], s => some ([], s)
  | call.set_setting name val vallen :: cs, s =>
    run_calls env cs (set_setting env name val vallen s).2
  | call.get_setting name vallen :: cs, s =>
    match run_calls env cs (get_setting name vallen s).2.state with
    | some (out, s1) =>
      some ((if name = "events".toList then (get_setting name vallen s).2.data else []) ++ out, s1)
    | none => none
  | call.event_writev iov tm :: cs, s =>
    match event_writev iov tm s with
    | some s1 => run_calls env cs s1
    | none => none

/-- The payloads that the `event_writev` calls of a run append, in order. -/
def appended_bytes : List call → List Char
  | [] => []
  | call.event_writev iov _ :: cs => iov_concat iov ++ appended_bytes cs
  | _ :: cs => appended_bytes cs

/-- The clock values that the `event_writev` calls of a run read, in order. -/
def call_times : List call → List Int
  | [] => []
  | call.event_writev _ tm :: cs => tm :: call_times cs
  | _ :: cs => call_times cs

/-- No `event_writev` of the run finds the head of the queue expired, so its
sweep removes nothing. -/
def no_expiry (env : Env) : List call → State → Bool
  | [], _ => true
  | call.set_setting name val vallen :: cs, s =>
    no_expiry env cs (set_setting env name val vallen s).2
  | call.get_setting name vallen :: cs, s =>
    no_expiry env cs (get_setting name vallen s).2.state
  | call.event_writev iov tm :: cs, s =>
    (match s.events with
      | [] => true
      | e :: _ => !expired tm e) &&
    (match event_writev iov tm s with
      | some s1 => no_expiry env cs s1
      | none => false)

/-- The text has a decimal digit right at its start. -/
def leading_digit : CStr → Bool
  | [] => false
  | c :: _ => isdigit c

/-- The text begins, after optional white space and an optional sign, with a
decimal digit. -/
def begins_with_number (text : CStr) : Bool :=
  match skip_space text with
  | [] => false
  | c :: cs => if c = '-' ∨ c = '+' then leading_digit cs else isdigit c

/-! ## Arithmetic of the C library model -/

theorem land_pred_eq_zero_iff (n : Nat) (hn : 0 < n) :
    n &&& (n - 1) = 0 ↔ ∃ k, n = 2 ^ k := by
  constructor
  · induction n using Nat.strong_induction_on with
    | _ n ih =>
      intro h
      rcases Nat.even_or_odd' n with ⟨m, hm | hm⟩
      · have hm0 : 0 < m := by omega
        have e1 : n = Nat.bit false m := by simp [Nat.bit]; omega
        have e2 : n - 1 = Nat.bit true (m - 1) := by simp [Nat.bit]; omega
        rw [e2] at h
        nth_rewrite 1 [e1] at h
        rw [Nat.land_bit] at h
        have h3 : m &&& (m - 1) = 0 := by
          simp [Nat.bit] at h
          exact h
        obtain ⟨k, hk⟩ := ih m (by omega) hm0 h3
        exact ⟨k + 1, by rw [hm, hk, pow_succ]; ring⟩
      · have e1 : n = Nat.bit true m := by simp [Nat.bit]; omega
        have e2 : n - 1 = Nat.bit false m := by simp [Nat.bit]; omega
        rw [e2] at h
        nth_rewrite 1 [e1] at h
        rw [Nat.land_bit] at h
        have h3 : m = 0 := by
          simp [Nat.bit] at h
          exact h
        exact ⟨0, by omega⟩
  · rintro ⟨k, rfl⟩
    simp

theorem digit_char_toNat (d : Nat) (hd : d < 10) : (digit_char d).toNat = 48 + d := by
  interval_cases d <;> rfl

theorem isdigit_digit_char (d : Nat) (hd : d < 10) : isdigit (digit_char d) = true := by
  simp [isdigit, digit_char_toNat d hd]
  omega

theorem isspace_digit_char (d : Nat) (hd : d < 10) : isspace (digit_char d) = false := by
  simp [isspace, digit_char_toNat d hd]
  omega

theorem digit_char_ne_sign (d : Nat) (hd : d < 10) :
    digit_char d ≠ '-' ∧ digit_char d ≠ '+' := by
  interval_cases d <;> decide

theorem lu_digits_append (fuel n : Nat) (acc : List Char) :
    lu_digits fuel n acc = lu_digits fuel n [] ++ acc := by
  induction fuel generalizing n acc with
  | zero => simp [lu_digits]
  | succ f ih =>
    simp only [lu_digits]
    split
    · simp
    · rw [ih (n / 10) (digit_char (n % 10) :: acc), ih (n / 10) [digit_char (n % 10)]]
      simp

theorem lu_digits_head (fuel n : Nat) (acc : List Char) :
    ∃ d cs, d < 10 ∧ lu_digits (fuel + 1) n acc = digit_char d :: cs := by
  induction fuel generalizing n acc with
  | zero =>
    refine ⟨n % 10, acc, Nat.mod_lt _ (by decide), ?_⟩
    simp [lu_digits]
  | succ f ih =>
    by_cases h : n / 10 = 0
    · refine ⟨n % 10, acc, Nat.mod_lt _ (by decide), ?_⟩
      simp [lu_digits, h]
    · obtain ⟨d, cs, hd, e⟩ := ih (n / 10) (digit_char (n % 10) :: acc)
      refine ⟨d, cs, hd, ?_⟩
      rw [← e]
      conv => lhs; unfold lu_digits
      simp [h]

theorem strtol_digits_lu_digits (fuel n : Nat) (rest : CStr) (h : n < 10 ^ fuel) :
    strtol_digits 0 (lu_digits fuel n [] ++ rest) = strtol_digits n rest := by
  induction fuel generalizing n rest with
  | zero =>
    have : n = 0 := by simpa using h
    subst this
    simp [lu_digits]
  | succ f ih =>
    have hd : n % 10 < 10 := Nat.mod_lt _ (by decide)
    by_cases h0 : n / 10 = 0
    · have hn : n % 10 = n := by omega
      rw [hn] at hd
      simp [lu_digits, h0, strtol_digits, isdigit_digit_char _ hd, digit_char_toNat _ hd, hn]
    · have hlt : n / 10 < 10 ^ f := by
        rw [pow_succ] at h
        omega
      simp only [lu_digits, h0, if_false]
      rw [lu_digits_append, List.append_assoc, ih (n / 10) _ hlt]
      simp [strtol_digits, isdigit_digit_char _ hd, digit_char_toNat _ hd]
      congr 1
      omega

/-- Reading back the text that `%lu` prints gives the number, as long as it
fits a `long`. -/
theorem atol_fmt_lu (n : Nat) (h : n < 2 ^ 63) : atol (fmt_lu n) = n := by
  have hmod : n % 18446744073709551616 = n := Nat.mod_eq_of_lt (by omega)
  have hlt : n < 10 ^ 20 := by
    have : (2 : Nat) ^ 63 < 10 ^ 20 := by norm_num
    omega
  obtain ⟨d, cs, hd, e⟩ := lu_digits_head 19 n []
  have hval : strtol_digits 0 (fmt_lu n) = n := by
    have := strtol_digits_lu_digits 20 n [] hlt
    simpa [fmt_lu, hmod, strtol_digits] using this
  have e2 : fmt_lu n = digit_char d :: cs := by
    simp [fmt_lu, hmod, e]
  have hsk : skip_space (fmt_lu n) = fmt_lu n := by
    rw [e2]
    simp [skip_space, isspace_digit_char d hd]
  unfold atol
  rw [hsk]
  rw [e2] at hval ⊢
  simp only [strtol_signed, (digit_char_ne_sign d hd).1, (digit_char_ne_sign d hd).2, if_false,
    hval]
  simp only [LONG_MAX]
  omega

theorem to_size_t_atol_fmt_lu (n : Nat) (h : n < 2 ^ 63) : to_size_t (atol (fmt_lu n)) = n := by
  rw [atol_fmt_lu n h]
  unfold to_size_t
  omega

theorem to_size_t_lt (x : Int) : to_size_t x < 2 ^ 64 := by
  unfold to_size_t
  omega


theorem digit_char_eq_digitChar (d : Nat) (hd : d < 10) : digit_char d = Nat.digitChar d := by
  interval_cases d <;> rfl

theorem lu_digits_eq_toDigitsCore (f1 f2 n : Nat) (acc : List Char)
    (h1 : n < 10 ^ (f1 + 1)) (h2 : n < 10 ^ (f2 + 1)) :
    lu_digits (f1 + 1) n acc = Nat.toDigitsCore 10 (f2 + 1) n acc := by
  induction f1 generalizing f2 n acc with
  | zero =>
    have h0 : n / 10 = 0 := by
      have : n < 10 := by simpa using h1
      omega
    simp [lu_digits, Nat.toDigitsCore, h0,
      digit_char_eq_digitChar (n % 10) (Nat.mod_lt _ (by decide))]
  | succ f ih =>
    have hd := digit_char_eq_digitChar (n % 10) (Nat.mod_lt _ (by decide))
    by_cases h0 : n / 10 = 0
    · simp [lu_digits, Nat.toDigitsCore, h0, hd]
    · cases f2 with
      | zero =>
        have : n < 10 := by simpa using h2
        omega
      | succ g =>
        have e1 : n / 10 < 10 ^ (f + 1) := by
          rw [pow_succ] at h1
          omega
        have e2 : n / 10 < 10 ^ (g + 1) := by
          rw [pow_succ] at h2
          omega
        have := ih g (n / 10) (digit_char (n % 10) :: acc) e1 e2
        conv => lhs; unfold lu_digits
        conv => rhs; unfold Nat.toDigitsCore
        simp only [h0, if_false]
        rw [this, hd]

/-- The text `%lu` prints is the decimal numeral of the number. -/
theorem fmt_lu_eq_repr (n : Nat) (h : n < 2 ^ 64) : fmt_lu n = (Nat.repr n).toList := by
  have hmod : n % 18446744073709551616 = n := Nat.mod_eq_of_lt (by omega)
  have h1 : n < 10 ^ (19 + 1) := by
    have : (2 : Nat) ^ 64 < 10 ^ 20 := by norm_num
    omega
  have h2 : n < 10 ^ (n + 1) := by
    have a : n < 2 ^ n := Nat.lt_two_pow n
    have b : 2 ^ n ≤ 10 ^ n := Nat.pow_le_pow_left (by decide) n
    have c : 10 ^ n ≤ 10 ^ (n + 1) := Nat.pow_le_pow_right (by decide) (by omega)
    omega
  have := lu_digits_eq_toDigitsCore 19 n n [] h1 h2
  simp [fmt_lu, hmod, Nat.repr, Nat.toDigits, this, List.asString]

theorem get_setting_id_name (i : Fin SETTINGSCNT) : get_setting_id (setting_name i) = some i := by
  revert i
  decide

theorem get_setting_id_some (name : CStr) (i : Fin SETTINGSCNT)
    (h : get_setting_id name = some i) : name = setting_name i := by
  have := List.find?_some h
  simpa using this

theorem get_setting_id_none (name : CStr) (h : ∀ i, name ≠ setting_name i) :
    get_setting_id name = none := by
  unfold get_setting_id
  rw [List.find?_eq_none]
  intro i _
  simpa using h i

theorem settings_name (i : Fin SETTINGSCNT) : (settings i).name = setting_name i := by
  revert i
  decide

/-! ## The rows of the table and the steps of `set_setting` -/

theorem snprintf_lu_fits (size num : Nat) (h : (fmt_lu num).length + 1 < size) :
    snprintf_lu size num = (fmt_lu num ++ ['\n', Char.ofNat 0], (fmt_lu num).length + 1) := by
  have h0 : size ≠ 0 := by omega
  have h1 : (fmt_lu num ++ ['\n']).length ≤ size - 1 := by
    simp
    omega
  simp only [snprintf_lu, h0, if_false, List.take_of_length_le h1]
  simp

theorem set_page_size_ret (env : Env) (str : CStr) (len : Nat) (s : State) :
    (set_page_size env str len s).1 =
      if 1024 ≤ to_size_t (atol str) ∧ to_size_t (atol str) ≤ 4 * 1024 * 1024 ∧
          to_size_t (atol str) &&& (to_size_t (atol str) - 1) = 0
      then 0 else -EINVAL := by
  unfold set_page_size
  by_cases h1 : to_size_t (atol str) < 1024
  · have : ¬ 1024 ≤ to_size_t (atol str) := by omega
    simp [h1, this]
  · by_cases h2 : to_size_t (atol str) > 4 * 1024 * 1024
    · have : ¬ to_size_t (atol str) ≤ 4 * 1024 * 1024 := by omega
      simp [h2, this]
    · by_cases h3 : to_size_t (atol str) &&& (to_size_t (atol str) - 1) = 0
      · have a : 1024 ≤ to_size_t (atol str) := by omega
        have b : to_size_t (atol str) ≤ 4 * 1024 * 1024 := by omega
        simp [h1, h2, h3, a, b]
      · simp [h1, h2, h3]

theorem set_setting_page_size (env : Env) (val : CStr) (vallen : Nat) (s : State) :
    set_setting env "page_size".toList val vallen s =
      if (set_page_size env val vallen s).1 = 0 then
        (0, { (set_page_size env val vallen s).2 with
          setting_stat := Function.update (set_page_size env val vallen s).2.setting_stat 0
            { ((set_page_size env val vallen s).2.setting_stat 0) with
              st_size := (fmt_lu (set_page_size env val vallen s).2.fs_settings.pagesize).length + 1,
              st_blocks := ((fmt_lu (set_page_size env val vallen s).2.fs_settings.pagesize).length
                + 1 + 511) / 512 } })
      else ((set_page_size env val vallen s).1, (set_page_size env val vallen s).2) := by
  have hid : get_setting_id "page_size".toList = some 0 := by decide
  simp only [set_setting, hid]
  split
  · rename_i h
    have h' : (set_page_size env val vallen s).1 = 0 := h
    simp [h', settings, get_page_size, setting_get_size_t, snprintf_lu]
  · rename_i h
    have h' : ¬ (set_page_size env val vallen s).1 = 0 := h
    simp [h', settings]

theorem set_page_size_state (env : Env) (str : CStr) (len : Nat) (s : State)
    (h : (set_page_size env str len s).1 = 0) :
    (set_page_size env str len s).2 =
      reset_cache { s with fs_settings := { s.fs_settings with pagesize := to_size_t (atol str) } } := by
  simp only [set_page_size] at h ⊢
  split at h
  · simp [EINVAL] at h
  · rename_i hc
    rw [if_neg hc]

theorem set_page_size_fail_state (env : Env) (str : CStr) (len : Nat) (s : State)
    (h : (set_page_size env str len s).1 ≠ 0) : (set_page_size env str len s).2 = s := by
  simp only [set_page_size] at h ⊢
  split at h
  · rename_i hc
    rw [if_pos hc]
  · simp at h

theorem pow_two_range (v : Nat) :
    (1024 ≤ v ∧ v ≤ 4 * 1024 * 1024 ∧ ∃ k, v = 2 ^ k) ↔ ∃ k, 10 ≤ k ∧ k ≤ 22 ∧ v = 2 ^ k := by
  constructor
  · rintro ⟨h1, h2, k, rfl⟩
    refine ⟨k, ?_, ?_, rfl⟩
    · by_contra hk
      have : k ≤ 9 := by omega
      have : 2 ^ k ≤ 2 ^ 9 := Nat.pow_le_pow_right (by decide) this
      omega
    · by_contra hk
      have : 23 ≤ k := by omega
      have : 2 ^ 23 ≤ 2 ^ k := Nat.pow_le_pow_right (by decide) this
      omega
  · rintro ⟨k, h1, h2, rfl⟩
    have a : 2 ^ 10 ≤ 2 ^ k := Nat.pow_le_pow_right (by decide) h1
    have b : 2 ^ k ≤ 2 ^ 22 := Nat.pow_le_pow_right (by decide) h2
    exact ⟨by omega, by omega, k, rfl⟩

theorem set_page_size_ok_iff (env : Env) (str : CStr) (len : Nat) (s : State) :
    (set_page_size env str len s).1 = 0 ↔
      (1024 ≤ to_size_t (atol str) ∧ to_size_t (atol str) ≤ 4 * 1024 * 1024 ∧
        ∃ k, to_size_t (atol str) = 2 ^ k) := by
  rw [set_page_size_ret]
  constructor
  · intro h
    split at h
    · rename_i hc
      exact ⟨hc.1, hc.2.1, (land_pred_eq_zero_iff _ (by omega)).1 hc.2.2⟩
    · simp [EINVAL] at h
  · rintro ⟨h1, h2, h3⟩
    have := (land_pred_eq_zero_iff _ (by omega)).2 h3
    simp [h1, h2, this]

theorem set_setting_page_size_spec (env : Env) (text : CStr) (vallen : Nat) (s : State) :
    ((set_setting env "page_size".toList text vallen s).1 = 0 ↔
      (1024 ≤ to_size_t (atol text) ∧ to_size_t (atol text) ≤ 4 * 1024 * 1024 ∧
        ∃ k, to_size_t (atol text) = 2 ^ k)) ∧
    ((set_setting env "page_size".toList text vallen s).1 = 0 ↔
      ∃ k, 10 ≤ k ∧ k ≤ 22 ∧ to_size_t (atol text) = 2 ^ k) ∧
    ((set_setting env "page_size".toList text vallen s).1 ≠ 0 →
      (set_setting env "page_size".toList text vallen s).1 = -EINVAL) ∧
    ((set_setting env "page_size".toList text vallen s).1 = 0 →
      (set_setting env "page_size".toList text vallen s).2.fs_settings.pagesize
        = to_size_t (atol text)) := by
  have hret : (set_setting env "page_size".toList text vallen s).1
      = (set_page_size env text vallen s).1 := by
    rw [set_setting_page_size]
    split
    · rename_i h
      simp [h]
    · rfl
  have hiff := set_page_size_ok_iff env text vallen s
  refine ⟨hret ▸ hiff, ?_, ?_, ?_⟩
  · rw [hret, hiff, pow_two_range]
  · rw [hret, set_page_size_ret]
    split
    · simp
    · simp
  · intro h
    have h0 : (set_page_size env text vallen s).1 = 0 := hret ▸ h
    rw [set_setting_page_size]
    simp only [h0, if_true, set_page_size_state env _ vallen s h0]
    simp [reset_cache]

/-- C1 (what the code does at the input of the claim): whatever the cache
size is, `set_setting("page_size", "4096")` returns 0 and stores 4096 as the
page size, leaving the cache size as it was: `set_page_size` never compares
against `cachesize`. From `cachesize = 8192` and `pagesize = 2048` the call
returns 0 and ends with `pagesize = 4096`, `cachesize = 8192 < 4 * 4096`. -/
theorem set_page_size_accepts_above_cache_quarter (env : Env) (vallen : Nat) (s : State) :
    ((set_setting env "page_size".toList "4096".toList vallen s).1 = 0 ∧
      (set_setting env "page_size".toList "4096".toList vallen s).2.fs_settings.pagesize = 4096 ∧
      (set_setting env "page_size".toList "4096".toList vallen s).2.fs_settings.cachesize
        = s.fs_settings.cachesize) ∧
    (let d : State :=
        ⟨⟨2048, 8192, 0, 0, 0, 0⟩, [], fun _ => none, fun _ => stat_zero, stat_zero, 0, 0⟩
      let r := set_setting env "page_size".toList "4096".toList vallen d
      r.1 = 0 ∧ r.2.fs_settings.pagesize = 4096 ∧ r.2.fs_settings.cachesize = 8192 ∧
      r.2.fs_settings.cachesize < 4 * r.2.fs_settings.pagesize) := by
  have hv : to_size_t (atol "4096".toList) = 4096 := by decide
  have key : ∀ t : State,
      (set_setting env "page_size".toList "4096".toList vallen t).1 = 0 ∧
      (set_setting env "page_size".toList "4096".toList vallen t).2.fs_settings.pagesize = 4096 ∧
      (set_setting env "page_size".toList "4096".toList vallen t).2.fs_settings.cachesize
        = t.fs_settings.cachesize := by
    intro t
    have h0 : (set_page_size env "4096".toList vallen t).1 = 0 := by
      rw [set_page_size_ret, hv]
      decide
    rw [set_setting_page_size]
    simp only [h0, if_true, set_page_size_state env _ vallen t h0, hv]
    simp [reset_cache]
  refine ⟨key s, ?_⟩
  intro d r
  have hd := key d
  refine ⟨hd.1, hd.2.1, hd.2.2, ?_⟩
  show (set_setting env "page_size".toList "4096".toList vallen d).2.fs_settings.cachesize
    < 4 * (set_setting env "page_size".toList "4096".toList vallen d).2.fs_settings.pagesize
  rw [hd.2.1, hd.2.2]
  decide

/-- C2: `set_setting("page_size", text)` returns 0 exactly when the parsed
value `v` is a power of two with `1024 <= v <= 4*1024*1024`, that is
`v = 2^k` with `10 <= k <= 22`; otherwise it returns `-EINVAL`; on success
the live page size is `v`. -/
theorem set_page_size_power_of_two (env : Env) (text : CStr) (vallen : Nat) (s : State) :
    ((set_setting env "page_size".toList text vallen s).1 = 0 ↔
      (1024 ≤ to_size_t (atol text) ∧ to_size_t (atol text) ≤ 4 * 1024 * 1024 ∧
        ∃ k, to_size_t (atol text) = 2 ^ k)) ∧
    ((set_setting env "page_size".toList text vallen s).1 = 0 ↔
      ∃ k, 10 ≤ k ∧ k ≤ 22 ∧ to_size_t (atol text) = 2 ^ k) ∧
    ((set_setting env "page_size".toList text vallen s).1 ≠ 0 →
      (set_setting env "page_size".toList text vallen s).1 = -EINVAL) ∧
    ((set_setting env "page_size".toList text vallen s).1 = 0 →
      (set_setting env "page_size".toList text vallen s).2.fs_settings.pagesize
        = to_size_t (atol text)) :=
  set_setting_page_size_spec env text vallen s

theorem get_setting_page_size (cap : Nat) (s : State) :
    get_setting "page_size".toList cap s =
      (0, ⟨s, (snprintf_lu cap s.fs_settings.pagesize).1, (snprintf_lu cap s.fs_settings.pagesize).2⟩) := by
  have hid : get_setting_id "page_size".toList = some 0 := by decide
  simp only [get_setting, hid]
  simp [settings, get_page_size, setting_get_size_t]

/-- C3: for a valid page size `p` (a power of two in `[1024, 4194304]`),
`set_setting("page_size", decimal text of p)` returns 0, and `get_setting`
of `page_size` into a buffer with room for the text and its NUL stores the
decimal digits of `p`, a newline and the NUL, reports the length of
digits-and-newline and leaves the state alone; and
`set_setting("page_size", "3000")` returns `-EINVAL` in every state. -/
theorem page_size_set_get_round_trip (env : Env) (vallen : Nat) (s : State) (p cap : Nat)
    (hp : ∃ k, p = 2 ^ k) (h1 : 1024 ≤ p) (h2 : p ≤ 4194304)
    (hcap : ((Nat.repr p).toList ++ ['\n']).length < cap) :
    (set_setting env "page_size".toList (Nat.repr p).toList vallen s).1 = 0 ∧
    (get_setting "page_size".toList cap
      (set_setting env "page_size".toList (Nat.repr p).toList vallen s).2).1 = 0 ∧
    (get_setting "page_size".toList cap
      (set_setting env "page_size".toList (Nat.repr p).toList vallen s).2).2.data
        = (Nat.repr p).toList ++ ['\n'] ++ [Char.ofNat 0] ∧
    (get_setting "page_size".toList cap
      (set_setting env "page_size".toList (Nat.repr p).toList vallen s).2).2.sz
        = ((Nat.repr p).toList ++ ['\n']).length ∧
    (get_setting "page_size".toList cap
      (set_setting env "page_size".toList (Nat.repr p).toList vallen s).2).2.state
        = (set_setting env "page_size".toList (Nat.repr p).toList vallen s).2 ∧
    ∀ (env1 : Env) (n : Nat) (s1 : State),
      (set_setting env1 "page_size".toList "3000".toList n s1).1 = -EINVAL := by
  have hrepr : (Nat.repr p).toList = fmt_lu p := (fmt_lu_eq_repr p (by omega)).symm
  have hv : to_size_t (atol (Nat.repr p).toList) = p := by
    rw [hrepr]
    exact to_size_t_atol_fmt_lu p (by omega)
  have hC2 := set_setting_page_size_spec env (Nat.repr p).toList vallen s
  have hok : (set_setting env "page_size".toList (Nat.repr p).toList vallen s).1 = 0 := by
    rw [hC2.1, hv]
    exact ⟨h1, h2, hp⟩
  have hps := hC2.2.2.2 hok
  rw [hv] at hps
  have hfit : (fmt_lu p).length + 1 < cap := by
    rw [hrepr] at hcap
    simpa using hcap
  refine ⟨hok, ?_, ?_, ?_, ?_, ?_⟩
  · rw [get_setting_page_size]
  · rw [get_setting_page_size]
    show (snprintf_lu cap _).1 = _
    rw [hps, snprintf_lu_fits cap p hfit, hrepr]
    simp
  · rw [get_setting_page_size]
    show (snprintf_lu cap _).2 = _
    rw [hps, snprintf_lu_fits cap p hfit, hrepr]
    simp
  · rw [get_setting_page_size]
  · intro env1 n s1
    have h3 := set_setting_page_size_spec env1 "3000".toList n s1
    apply h3.2.2.1
    intro h0
    rw [h3.1] at h0
    have hv3 : to_size_t (atol "3000".toList) = 3000 := by decide
    rw [hv3] at h0
    obtain ⟨_, _, k, hk⟩ := h0
    have : k < 12 := by
      by_contra hc
      have : 2 ^ 12 ≤ 2 ^ k := Nat.pow_le_pow_right (by decide) (by omega)
      omega
    interval_cases k <;> omega

theorem page_size_set_get_round_trip_witness :
    (set_setting ⟨1073741824, 4096, 0, 0⟩ "page_size".toList "2048".toList 4
      ⟨⟨4096, 65536, 0, 0, 0, 0⟩, [], fun _ => none, fun _ => stat_zero, stat_zero, 0, 0⟩).1 = 0 ∧
    (get_setting "page_size".toList 64
      (set_setting ⟨1073741824, 4096, 0, 0⟩ "page_size".toList "2048".toList 4
        ⟨⟨4096, 65536, 0, 0, 0, 0⟩, [], fun _ => none, fun _ => stat_zero, stat_zero, 0, 0⟩).2).2.data
      = "2048\n".toList ++ [Char.ofNat 0] :=
  have h := page_size_set_get_round_trip ⟨1073741824, 4096, 0, 0⟩ 4
    ⟨⟨4096, 65536, 0, 0, 0, 0⟩, [], fun _ => none, fun _ => stat_zero, stat_zero, 0, 0⟩ 2048 64
    ⟨11, by decide⟩ (by decide) (by decide) (by decide)
  ⟨h.1, h.2.2.1⟩

/-! ## The setters, one by one -/

theorem set_page_size_eq (env : Env) (str : CStr) (len : Nat) (s : State) :
    set_page_size env str len s =
      if 1024 ≤ to_size_t (atol str) ∧ to_size_t (atol str) ≤ 4 * 1024 * 1024 ∧
          to_size_t (atol str) &&& (to_size_t (atol str) - 1) = 0
      then (0, reset_cache
        { s with fs_settings := { s.fs_settings with pagesize := to_size_t (atol str) } })
      else (-EINVAL, s) := by
  by_cases h : 1024 ≤ to_size_t (atol str) ∧ to_size_t (atol str) ≤ 4 * 1024 * 1024 ∧
      to_size_t (atol str) &&& (to_size_t (atol str) - 1) = 0
  · have a : ¬ to_size_t (atol str) < 1024 := by omega
    have b : ¬ 4 * 1024 * 1024 < to_size_t (atol str) := by omega
    simp [set_page_size, h, a, b]
  · rw [if_neg h]
    simp only [set_page_size]
    rw [if_pos]
    simp only [Bool.or_eq_true, decide_eq_true_eq, bne_iff_ne, ne_eq]
    by_contra hc
    apply h
    push_neg at hc
    omega

theorem set_cache_size_eq (env : Env) (str : CStr) (len : Nat) (s : State) :
    set_cache_size env str len s =
      if s.fs_settings.pagesize * 4 % 2 ^ 64 ≤ to_size_t (atol str) ∧
          to_size_t (atol str) ≤ env.MAX_CACHE_SIZE
      then (0, reset_cache
        { s with fs_settings := { s.fs_settings with cachesize := to_size_t (atol str) } })
      else (-EINVAL, s) := by
  simp only [set_cache_size]
  by_cases h1 : to_size_t (atol str) < s.fs_settings.pagesize * 4 % 2 ^ 64
  · have : ¬ (s.fs_settings.pagesize * 4 % 2 ^ 64 ≤ to_size_t (atol str) ∧
        to_size_t (atol str) ≤ env.MAX_CACHE_SIZE) := by omega
    rw [if_pos h1, if_neg this]
  · rw [if_neg h1]
    by_cases h2 : to_size_t (atol str) > env.MAX_CACHE_SIZE
    · have : ¬ (s.fs_settings.pagesize * 4 % 2 ^ 64 ≤ to_size_t (atol str) ∧
          to_size_t (atol str) ≤ env.MAX_CACHE_SIZE) := by omega
      rw [if_pos h2, if_neg this]
    · have : s.fs_settings.pagesize * 4 % 2 ^ 64 ≤ to_size_t (atol str) ∧
          to_size_t (atol str) ≤ env.MAX_CACHE_SIZE := by omega
      rw [if_neg h2, if_pos this]

theorem set_readahead_min_eq (env : Env) (str : CStr) (len : Nat) (s : State) :
    set_readahead_min env str len s =
      if to_size_t (atol str) ≤ s.fs_settings.readaheadmax
      then (0, { s with fs_settings := { s.fs_settings with readaheadmin := to_size_t (atol str) } })
      else (-EINVAL, s) := by
  simp only [set_readahead_min]
  by_cases h : to_size_t (atol str) > s.fs_settings.readaheadmax
  · rw [if_pos h, if_neg (by omega)]
  · rw [if_neg h, if_pos (by omega)]

theorem set_readahead_max_eq (env : Env) (str : CStr) (len : Nat) (s : State) :
    set_readahead_max env str len s =
      if s.fs_settings.readaheadmin ≤ to_size_t (atol str)
      then (0, { s with fs_settings := { s.fs_settings with readaheadmax := to_size_t (atol str) } })
      else (-EINVAL, s) := by
  simp only [set_readahead_max]
  by_cases h : to_size_t (atol str) < s.fs_settings.readaheadmin
  · rw [if_pos h, if_neg (by omega)]
  · rw [if_neg h, if_pos (by omega)]

/-! ## Facts about every row of the table -/

/-- The getters of the rows flagged `support_stat` leave the state alone. -/
theorem getter_state (i : Fin SETTINGSCNT) (hi : (settings i).support_stat = true)
    (s : State) (cap : Nat) : ((settings i).get s cap).state = s := by
  fin_cases i <;> first | rfl | (exfalso; revert hi; decide)

/-- The length a scalar getter reports depends on `fs_settings` alone, not on
the capacity. -/
theorem getter_sz_congr (i : Fin SETTINGSCNT) (hi : (settings i).support_stat = true)
    (s t : State) (cap1 cap2 : Nat) (h : s.fs_settings = t.fs_settings) :
    ((settings i).get s cap1).sz = ((settings i).get t cap2).sz := by
  fin_cases i <;>
    first
    | (exfalso; revert hi; decide)
    | (simp [settings, get_page_size, get_cache_size, get_readahead_min, get_readahead_max,
        get_readahead_max_sec, get_use_ssl, setting_get_size_t, setting_get_bool, snprintf_lu, h])

/-- A setter returns 0 or `-EINVAL`. -/
theorem setter_ret (i : Fin SETTINGSCNT) (env : Env) (val : CStr) (len : Nat) (s : State) :
    ((settings i).set env val len s).1 = 0 ∨ ((settings i).set env val len s).1 = -EINVAL := by
  fin_cases i
  · show (set_page_size env val len s).1 = 0 ∨ (set_page_size env val len s).1 = -EINVAL
    rw [set_page_size_eq]; split <;> simp
  · show (set_cache_size env val len s).1 = 0 ∨ (set_cache_size env val len s).1 = -EINVAL
    rw [set_cache_size_eq]; split <;> simp
  · show (set_readahead_min env val len s).1 = 0 ∨ (set_readahead_min env val len s).1 = -EINVAL
    rw [set_readahead_min_eq]; split <;> simp
  · show (set_readahead_max env val len s).1 = 0 ∨ (set_readahead_max env val len s).1 = -EINVAL
    rw [set_readahead_max_eq]; split <;> simp
  · exact Or.inl rfl
  · exact Or.inl rfl
  · exact Or.inr rfl

/-- A setter that does not return 0 leaves the state alone. -/
theorem setter_fail_state (i : Fin SETTINGSCNT) (env : Env) (val : CStr) (len : Nat) (s : State)
    (h : ((settings i).set env val len s).1 ≠ 0) : ((settings i).set env val len s).2 = s := by
  fin_cases i
  · change (set_page_size env val len s).1 ≠ 0 at h
    show (set_page_size env val len s).2 = s
    rw [set_page_size_eq] at h ⊢
    split at h
    · simp at h
    · rename_i hc; rw [if_neg hc]
  · change (set_cache_size env val len s).1 ≠ 0 at h
    show (set_cache_size env val len s).2 = s
    rw [set_cache_size_eq] at h ⊢
    split at h
    · simp at h
    · rename_i hc; rw [if_neg hc]
  · change (set_readahead_min env val len s).1 ≠ 0 at h
    show (set_readahead_min env val len s).2 = s
    rw [set_readahead_min_eq] at h ⊢
    split at h
    · simp at h
    · rename_i hc; rw [if_neg hc]
  · change (set_readahead_max env val len s).1 ≠ 0 at h
    show (set_readahead_max env val len s).2 = s
    rw [set_readahead_max_eq] at h ⊢
    split at h
    · simp at h
    · rename_i hc; rw [if_neg hc]
  · exact absurd rfl h
  · exact absurd rfl h
  · rfl

/-- A setter writes `fs_settings` and the reset counter only. -/
theorem setter_frame (i : Fin SETTINGSCNT) (env : Env) (val : CStr) (len : Nat) (s : State) :
    ((settings i).set env val len s).2.events = s.events ∧
    ((settings i).set env val len s).2.setting_names = s.setting_names ∧
    ((settings i).set env val len s).2.setting_stat = s.setting_stat ∧
    ((settings i).set env val len s).2.settings_stat = s.settings_stat ∧
    ((settings i).set env val len s).2.names_init = s.names_init := by
  fin_cases i
  · show (set_page_size env val len s).2.events = _ ∧ (set_page_size env val len s).2.setting_names = _ ∧
      (set_page_size env val len s).2.setting_stat = _ ∧ (set_page_size env val len s).2.settings_stat = _ ∧
      (set_page_size env val len s).2.names_init = _
    rw [set_page_size_eq]; split <;> simp [reset_cache]
  · show (set_cache_size env val len s).2.events = _ ∧ (set_cache_size env val len s).2.setting_names = _ ∧
      (set_cache_size env val len s).2.setting_stat = _ ∧ (set_cache_size env val len s).2.settings_stat = _ ∧
      (set_cache_size env val len s).2.names_init = _
    rw [set_cache_size_eq]; split <;> simp [reset_cache]
  · show (set_readahead_min env val len s).2.events = _ ∧ (set_readahead_min env val len s).2.setting_names = _ ∧
      (set_readahead_min env val len s).2.setting_stat = _ ∧ (set_readahead_min env val len s).2.settings_stat = _ ∧
      (set_readahead_min env val len s).2.names_init = _
    rw [set_readahead_min_eq]; split <;> simp
  · show (set_readahead_max env val len s).2.events = _ ∧ (set_readahead_max env val len s).2.setting_names = _ ∧
      (set_readahead_max env val len s).2.setting_stat = _ ∧ (set_readahead_max env val len s).2.settings_stat = _ ∧
      (set_readahead_max env val len s).2.names_init = _
    rw [set_readahead_max_eq]; split <;> simp
  · exact ⟨rfl, rfl, rfl, rfl, rfl⟩
  · exact ⟨rfl, rfl, rfl, rfl, rfl⟩
  · exact ⟨rfl, rfl, rfl, rfl, rfl⟩

/-- The row `events` never accepts a write, so a setter that returns 0 belongs
to a row flagged `support_stat`. -/
theorem setter_ok_support_stat (i : Fin SETTINGSCNT) (env : Env) (val : CStr) (len : Nat)
    (s : State) (h : ((settings i).set env val len s).1 = 0) :
    (settings i).support_stat = true := by
  fin_cases i <;> first | rfl | skip
  change (-EINVAL : Int) = 0 at h
  simp [EINVAL] at h

/-- The steps of `set_setting` for a name found in the table. -/
theorem set_setting_of_id (env : Env) (name val : CStr) (vallen : Nat) (s : State)
    (id : Fin SETTINGSCNT) (h : get_setting_id name = some id) :
    set_setting env name val vallen s =
      if ((settings id).set env val vallen s).1 = 0 then
        (0, { ((settings id).set env val vallen s).2 with
          setting_stat := Function.update ((settings id).set env val vallen s).2.setting_stat id
            { (((settings id).set env val vallen s).2.setting_stat id) with
              st_size := ((settings id).get ((settings id).set env val vallen s).2 4096).sz,
              st_blocks :=
                (((settings id).get ((settings id).set env val vallen s).2 4096).sz + 511) / 512 } })
      else (-EINVAL, s) := by
  simp only [set_setting, h]
  split
  · rename_i h0
    have hs := getter_state id (setter_ok_support_stat id env val vallen s h0)
      ((settings id).set env val vallen s).2 4096
    rw [hs, h0]
  · rename_i h0
    have hr := setter_ret id env val vallen s
    have hst := setter_fail_state id env val vallen s h0
    rcases hr with hr | hr
    · exact absurd hr h0
    · rw [hr, hst]

theorem set_setting_of_none (env : Env) (name val : CStr) (vallen : Nat) (s : State)
    (h : get_setting_id name = none) : set_setting env name val vallen s = (-ENOENT, s) := by
  simp only [set_setting, h]

theorem set_setting_ret (env : Env) (name val : CStr) (vallen : Nat) (s : State)
    (id : Fin SETTINGSCNT) (h : get_setting_id name = some id) :
    (set_setting env name val vallen s).1 = ((settings id).set env val vallen s).1 := by
  rw [set_setting_of_id env name val vallen s id h]
  split
  · rename_i h0; rw [h0]
  · rename_i h0
    rcases setter_ret id env val vallen s with hr | hr
    · exact absurd hr h0
    · rw [hr]

theorem set_setting_fs (env : Env) (name val : CStr) (vallen : Nat) (s : State)
    (id : Fin SETTINGSCNT) (h : get_setting_id name = some id) :
    (set_setting env name val vallen s).2.fs_settings
      = ((settings id).set env val vallen s).2.fs_settings := by
  rw [set_setting_of_id env name val vallen s id h]
  split
  · rfl
  · rename_i h0
    rw [setter_fail_state id env val vallen s h0]

theorem set_setting_cache_size_spec (env : Env) (text : CStr) (vallen : Nat) (s : State)
    (hps : s.fs_settings.pagesize * 4 < 2 ^ 64) :
    ((set_setting env "cache_size".toList text vallen s).1 = 0 ↔
      (4 * s.fs_settings.pagesize ≤ to_size_t (atol text) ∧
        to_size_t (atol text) ≤ env.MAX_CACHE_SIZE)) ∧
    ((set_setting env "cache_size".toList text vallen s).1 ≠ 0 →
      (set_setting env "cache_size".toList text vallen s).1 = -EINVAL) ∧
    ((set_setting env "cache_size".toList text vallen s).1 = 0 →
      (set_setting env "cache_size".toList text vallen s).2.fs_settings.cachesize
        = to_size_t (atol text)) ∧
    (set_setting env "cache_size".toList text vallen s).2.fs_settings.pagesize
      = s.fs_settings.pagesize := by
  have hid : get_setting_id "cache_size".toList = some 1 := by decide
  have hret := set_setting_ret env _ text vallen s 1 hid
  have hfs := set_setting_fs env _ text vallen s 1 hid
  have hset : (settings 1).set env text vallen s = set_cache_size env text vallen s := rfl
  rw [hset] at hret hfs
  rw [hret, hfs, set_cache_size_eq]
  have hmod : s.fs_settings.pagesize * 4 % 2 ^ 64 = s.fs_settings.pagesize * 4 :=
    Nat.mod_eq_of_lt hps
  rw [hmod]
  by_cases hc : s.fs_settings.pagesize * 4 ≤ to_size_t (atol text) ∧
      to_size_t (atol text) ≤ env.MAX_CACHE_SIZE
  · rw [if_pos hc]
    refine ⟨⟨fun _ => ⟨by omega, hc.2⟩, fun _ => rfl⟩, fun h => absurd rfl h, fun _ => rfl, rfl⟩
  · rw [if_neg hc]
    refine ⟨⟨fun h => ?_, fun h => absurd ⟨by omega, h.2⟩ hc⟩, fun _ => rfl, fun h => ?_, rfl⟩
    · simp [EINVAL] at h
    · simp [EINVAL] at h

/-- C4: in a state whose page size quadruples without wrapping the 64-bit
`size_t` (every page size the setter admits does),
`set_setting("cache_size", text)` returns 0 exactly when the parsed value
`v` satisfies `4 * pagesize <= v <= MAX_CACHE_SIZE`, with `pagesize` the
page size before the call; otherwise it returns `-EINVAL`; on success the
cache size is `v`; the page size is not changed. -/
theorem set_cache_size_range (env : Env) (text : CStr) (vallen : Nat) (s : State)
    (hps : s.fs_settings.pagesize * 4 < 2 ^ 64) :
    ((set_setting env "cache_size".toList text vallen s).1 = 0 ↔
      (4 * s.fs_settings.pagesize ≤ to_size_t (atol text) ∧
        to_size_t (atol text) ≤ env.MAX_CACHE_SIZE)) ∧
    ((set_setting env "cache_size".toList text vallen s).1 ≠ 0 →
      (set_setting env "cache_size".toList text vallen s).1 = -EINVAL) ∧
    ((set_setting env "cache_size".toList text vallen s).1 = 0 →
      (set_setting env "cache_size".toList text vallen s).2.fs_settings.cachesize
        = to_size_t (atol text)) ∧
    (set_setting env "cache_size".toList text vallen s).2.fs_settings.pagesize
      = s.fs_settings.pagesize :=
  set_setting_cache_size_spec env text vallen s hps

theorem set_cache_size_range_witness :
    (4096 : Nat) * 4 < 2 ^ 64 ∧
    ((set_setting ⟨1073741824, 4096, 0, 0⟩ "cache_size".toList "16384".toList 5
      ⟨⟨4096, 65536, 0, 0, 0, 0⟩, [], fun _ => none, fun _ => stat_zero, stat_zero, 0, 0⟩).1 = 0 ↔
      (4 * 4096 ≤ to_size_t (atol "16384".toList) ∧
        to_size_t (atol "16384".toList) ≤ 1073741824)) :=
  ⟨by decide, (set_cache_size_range ⟨1073741824, 4096, 0, 0⟩ "16384".toList 5
    ⟨⟨4096, 65536, 0, 0, 0, 0⟩, [], fun _ => none, fun _ => stat_zero, stat_zero, 0, 0⟩
    (by decide)).1⟩

theorem set_setting_readahead_min_spec (env : Env) (text : CStr) (vallen : Nat) (s : State) :
    ((set_setting env "readahead_min".toList text vallen s).1 = -EINVAL ↔
      to_size_t (atol text) > s.fs_settings.readaheadmax) ∧
    ((set_setting env "readahead_min".toList text vallen s).1 ≠ -EINVAL →
      (set_setting env "readahead_min".toList text vallen s).1 = 0 ∧
      (set_setting env "readahead_min".toList text vallen s).2.fs_settings.readaheadmin
        = to_size_t (atol text)) := by
  have hid : get_setting_id "readahead_min".toList = some 2 := by decide
  have hret := set_setting_ret env _ text vallen s 2 hid
  have hfs := set_setting_fs env _ text vallen s 2 hid
  have hset : (settings 2).set env text vallen s = set_readahead_min env text vallen s := rfl
  rw [hset] at hret hfs
  rw [hret, hfs, set_readahead_min_eq]
  by_cases hc : to_size_t (atol text) ≤ s.fs_settings.readaheadmax
  · rw [if_pos hc]
    refine ⟨⟨fun h => ?_, fun h => absurd hc (by omega)⟩, fun _ => ⟨rfl, rfl⟩⟩
    simp [EINVAL] at h
  · rw [if_neg hc]
    exact ⟨⟨fun _ => by omega, fun _ => rfl⟩, fun h => absurd rfl h⟩

theorem set_setting_readahead_max_spec (env : Env) (text : CStr) (vallen : Nat) (s : State) :
    ((set_setting env "readahead_max".toList text vallen s).1 = -EINVAL ↔
      to_size_t (atol text) < s.fs_settings.readaheadmin) ∧
    ((set_setting env "readahead_max".toList text vallen s).1 ≠ -EINVAL →
      (set_setting env "readahead_max".toList text vallen s).1 = 0 ∧
      (set_setting env "readahead_max".toList text vallen s).2.fs_settings.readaheadmax
        = to_size_t (atol text)) := by
  have hid : get_setting_id "readahead_max".toList = some 3 := by decide
  have hret := set_setting_ret env _ text vallen s 3 hid
  have hfs := set_setting_fs env _ text vallen s 3 hid
  have hset : (settings 3).set env text vallen s = set_readahead_max env text vallen s := rfl
  rw [hset] at hret hfs
  rw [hret, hfs, set_readahead_max_eq]
  by_cases hc : s.fs_settings.readaheadmin ≤ to_size_t (atol text)
  · rw [if_pos hc]
    refine ⟨⟨fun h => ?_, fun h => absurd hc (by omega)⟩, fun _ => ⟨rfl, rfl⟩⟩
    simp [EINVAL] at h
  · rw [if_neg hc]
    exact ⟨⟨fun _ => by omega, fun _ => rfl⟩, fun h => absurd rfl h⟩

/-- C5: `set_setting("readahead_min", text)` returns `-EINVAL` exactly when
the parsed value `v` is above the current `readaheadmax`, and
`set_setting("readahead_max", text)` exactly when `v` is below the current
`readaheadmin`; otherwise the call returns 0 and the named field is `v`.
From min 10 and max 20: min to 25 fails, max to 5 fails, then max to 50
and min to 30 both return 0. -/
theorem readahead_ordering (env : Env) (text : CStr) (vallen : Nat) (s : State) :
    (((set_setting env "readahead_min".toList text vallen s).1 = -EINVAL ↔
        to_size_t (atol text) > s.fs_settings.readaheadmax) ∧
      ((set_setting env "readahead_min".toList text vallen s).1 ≠ -EINVAL →
        (set_setting env "readahead_min".toList text vallen s).1 = 0 ∧
        (set_setting env "readahead_min".toList text vallen s).2.fs_settings.readaheadmin
          = to_size_t (atol text))) ∧
    (((set_setting env "readahead_max".toList text vallen s).1 = -EINVAL ↔
        to_size_t (atol text) < s.fs_settings.readaheadmin) ∧
      ((set_setting env "readahead_max".toList text vallen s).1 ≠ -EINVAL →
        (set_setting env "readahead_max".toList text vallen s).1 = 0 ∧
        (set_setting env "readahead_max".toList text vallen s).2.fs_settings.readaheadmax
          = to_size_t (atol text))) ∧
    (let d : State :=
        ⟨⟨4096, 65536, 10, 20, 0, 0⟩, [], fun _ => none, fun _ => stat_zero, stat_zero, 0, 0⟩
      let r1 := set_setting env "readahead_min".toList "25".toList 2 d
      let r2 := set_setting env "readahead_max".toList "5".toList 1 r1.2
      let r3 := set_setting env "readahead_max".toList "50".toList 2 r2.2
      let r4 := set_setting env "readahead_min".toList "30".toList 2 r3.2
      r1.1 = -EINVAL ∧ r2.1 = -EINVAL ∧ r3.1 = 0 ∧ r4.1 = 0 ∧
      r4.2.fs_settings.readaheadmin = 30 ∧ r4.2.fs_settings.readaheadmax = 50) := by
  refine ⟨set_setting_readahead_min_spec env text vallen s,
    set_setting_readahead_max_spec env text vallen s, ?_⟩
  intro d r1 r2 r3 r4
  have v25 : to_size_t (atol "25".toList) = 25 := by decide
  have v5 : to_size_t (atol "5".toList) = 5 := by decide
  have v50 : to_size_t (atol "50".toList) = 50 := by decide
  have v30 : to_size_t (atol "30".toList) = 30 := by decide
  have e1 : r1 = (-EINVAL, d) := by
    show set_setting env "readahead_min".toList "25".toList 2 d = _
    rw [set_setting_of_id env _ _ _ _ 2 (by decide)]
    have : ((settings 2).set env "25".toList 2 d) = (-EINVAL, d) := by
      show set_readahead_min env "25".toList 2 d = _
      rw [set_readahead_min_eq, v25]
      rfl
    rw [this]
    rfl
  have e2 : r2 = (-EINVAL, d) := by
    show set_setting env "readahead_max".toList "5".toList 1 r1.2 = _
    rw [e1, set_setting_of_id env _ _ _ _ 3 (by decide)]
    have : ((settings 3).set env "5".toList 1 d) = (-EINVAL, d) := by
      show set_readahead_max env "5".toList 1 d = _
      rw [set_readahead_max_eq, v5]
      rfl
    rw [this]
    rfl
  have m3 := set_setting_readahead_max_spec env "50".toList 2 d
  have hr3 : r3 = set_setting env "readahead_max".toList "50".toList 2 d := by
    show set_setting env "readahead_max".toList "50".toList 2 r2.2 = _
    rw [e2]
  have ok3 : r3.1 ≠ -EINVAL := by
    rw [hr3]
    intro h
    have := m3.1.1 h
    rw [v50] at this
    exact absurd this (by decide)
  have f3 := m3.2 (hr3 ▸ ok3)
  rw [← hr3, v50] at f3
  have hmin3 : r3.2.fs_settings.readaheadmin = 10 := by
    rw [hr3, set_setting_fs env _ _ _ _ 3 (by decide)]
    show (set_readahead_max env "50".toList 2 d).2.fs_settings.readaheadmin = 10
    rw [set_readahead_max_eq, v50]
    rfl
  have m4 := set_setting_readahead_min_spec env "30".toList 2 r3.2
  have ok4 : r4.1 ≠ -EINVAL := by
    intro h
    have := m4.1.1 h
    rw [v30, f3.2] at this
    exact absurd this (by decide)
  have f4 := m4.2 ok4
  rw [v30] at f4
  have hmax4 : r4.2.fs_settings.readaheadmax = 50 := by
    show (set_setting env "readahead_min".toList "30".toList 2 r3.2).2.fs_settings.readaheadmax = 50
    rw [set_setting_fs env _ _ _ _ 2 (by decide)]
    show (set_readahead_min env "30".toList 2 r3.2).2.fs_settings.readaheadmax = 50
    rw [set_readahead_min_eq, v30, f3.2]
    simp [f3.2]
  exact ⟨by rw [e1], by rw [e2], f3.1, f4.1, f4.2, hmax4⟩

theorem set_readahead_max_sec_eq (env : Env) (str : CStr) (len : Nat) (s : State) :
    set_readahead_max_sec env str len s =
      (0, { s with fs_settings := { s.fs_settings with readaheadmaxsec := to_size_t (atol str) } }) :=
  rfl

theorem set_use_ssl_eq (env : Env) (str : CStr) (len : Nat) (s : State) :
    set_use_ssl env str len s =
      (0, { s with fs_settings := { s.fs_settings with usessl := if atoi str ≠ 0 then 1 else 0 } }) :=
  rfl

/-- Every setter keeps `readaheadmin <= readaheadmax`. -/
theorem setter_readahead_le (i : Fin SETTINGSCNT) (env : Env) (val : CStr) (len : Nat) (s : State)
    (h : s.fs_settings.readaheadmin ≤ s.fs_settings.readaheadmax) :
    ((settings i).set env val len s).2.fs_settings.readaheadmin
      ≤ ((settings i).set env val len s).2.fs_settings.readaheadmax := by
  fin_cases i
  · show (set_page_size env val len s).2.fs_settings.readaheadmin
      ≤ (set_page_size env val len s).2.fs_settings.readaheadmax
    rw [set_page_size_eq]
    split
    · exact h
    · exact h
  · show (set_cache_size env val len s).2.fs_settings.readaheadmin
      ≤ (set_cache_size env val len s).2.fs_settings.readaheadmax
    rw [set_cache_size_eq]
    split
    · exact h
    · exact h
  · show (set_readahead_min env val len s).2.fs_settings.readaheadmin
      ≤ (set_readahead_min env val len s).2.fs_settings.readaheadmax
    rw [set_readahead_min_eq]
    split
    · rename_i hc
      exact hc
    · exact h
  · show (set_readahead_max env val len s).2.fs_settings.readaheadmin
      ≤ (set_readahead_max env val len s).2.fs_settings.readaheadmax
    rw [set_readahead_max_eq]
    split
    · rename_i hc
      exact hc
    · exact h
  · exact h
  · exact h
  · exact h

/-- C6: if `readaheadmin <= readaheadmax` holds before
`set_setting(name, text)`, it holds after it, for every name (in the table
or not) and every text (also one that parses as a negative number or as no
number), whatever the call returns. -/
theorem readahead_min_le_max_preserved (env : Env) (name text : CStr) (vallen : Nat) (s : State)
    (h : s.fs_settings.readaheadmin ≤ s.fs_settings.readaheadmax) :
    (set_setting env name text vallen s).2.fs_settings.readaheadmin
      ≤ (set_setting env name text vallen s).2.fs_settings.readaheadmax := by
  cases hid : get_setting_id name with
  | none =>
    rw [set_setting_of_none env name text vallen s hid]
    exact h
  | some id =>
    rw [set_setting_fs env name text vallen s id hid]
    exact setter_readahead_le id env text vallen s h

theorem readahead_min_le_max_preserved_witness :
    (10 : Nat) ≤ 20 ∧
    (set_setting ⟨1073741824, 4096, 0, 0⟩ "readahead_max".toList "-1".toList 2
      ⟨⟨4096, 65536, 10, 20, 0, 0⟩, [], fun _ => none, fun _ => stat_zero, stat_zero, 0, 0⟩).2.fs_settings.readaheadmin
      ≤ (set_setting ⟨1073741824, 4096, 0, 0⟩ "readahead_max".toList "-1".toList 2
      ⟨⟨4096, 65536, 10, 20, 0, 0⟩, [], fun _ => none, fun _ => stat_zero, stat_zero, 0, 0⟩).2.fs_settings.readaheadmax :=
  ⟨by decide, readahead_min_le_max_preserved ⟨1073741824, 4096, 0, 0⟩ "readahead_max".toList
    "-1".toList 2
    ⟨⟨4096, 65536, 10, 20, 0, 0⟩, [], fun _ => none, fun _ => stat_zero, stat_zero, 0, 0⟩
    (by decide)⟩

/-! ## The metadata of the scalar rows follows the values -/

/-- A setter changes the length that the getter of another scalar row
reports in no way. -/
theorem getter_sz_other_setter (i j : Fin SETTINGSCNT) (hij : j ≠ i)
    (hj : (settings j).support_stat = true) (env : Env) (val : CStr) (len : Nat) (s : State)
    (cap : Nat) :
    ((settings j).get ((settings i).set env val len s).2 cap).sz = ((settings j).get s cap).sz := by
  by_cases h0 : ((settings i).set env val len s).1 = 0
  · fin_cases i <;> fin_cases j <;>
      first
      | exact absurd rfl hij
      | (exfalso; revert hj; decide)
      | rfl
      | (simp [settings,
            set_page_size_eq, set_cache_size_eq, set_readahead_min_eq,
            set_readahead_max_eq, set_readahead_max_sec_eq, set_use_ssl_eq, set_events,
            get_page_size, get_cache_size, get_readahead_min, get_readahead_max,
            get_readahead_max_sec, get_use_ssl, setting_get_size_t, setting_get_bool, reset_cache];
         done)
      | (simp [settings,
            set_page_size_eq, set_cache_size_eq, set_readahead_min_eq,
            set_readahead_max_eq, set_readahead_max_sec_eq, set_use_ssl_eq, set_events,
            get_page_size, get_cache_size, get_readahead_min, get_readahead_max,
            get_readahead_max_sec, get_use_ssl, setting_get_size_t, setting_get_bool, reset_cache];
         split <;> rfl)
  · rw [setter_fail_state i env val len s h0]

theorem update_events_stat_eq (s : State) :
    update_events_stat s =
      (let sz : Nat := match s.events with
        | e :: _ => e.sz
        | [] => 0
      let st : stat := { (s.setting_stat 6) with st_size := sz, st_blocks := (sz + 511) / 512 }
      { s with setting_stat := Function.update s.setting_stat 6 st }) := by
  have hid : get_setting_id "events".toList = some 6 := by decide
  simp only [update_events_stat, hid]

theorem update_events_stat_fs (s : State) :
    (update_events_stat s).fs_settings = s.fs_settings := by
  rw [update_events_stat_eq]

theorem update_events_stat_events (s : State) : (update_events_stat s).events = s.events := by
  rw [update_events_stat_eq]

theorem update_events_stat_other (s : State) (j : Fin SETTINGSCNT) (hj : j ≠ 6) :
    (update_events_stat s).setting_stat j = s.setting_stat j := by
  rw [update_events_stat_eq]
  exact Function.update_noteq hj _ _

theorem support_stat_ne_events (j : Fin SETTINGSCNT) (hj : (settings j).support_stat = true) :
    j ≠ 6 := by
  rintro rfl
  revert hj
  decide

/-- A getter, also the one of `events`, writes neither `fs_settings` nor the
metadata of a scalar row. -/
theorem getter_frame (i : Fin SETTINGSCNT) (s : State) (cap : Nat) :
    ((settings i).get s cap).state.fs_settings = s.fs_settings ∧
    ∀ j, (settings j).support_stat = true →
      ((settings i).get s cap).state.setting_stat j = s.setting_stat j := by
  by_cases hi : (settings i).support_stat = true
  · rw [getter_state i hi s cap]
    exact ⟨rfl, fun _ _ => rfl⟩
  · have h6 : i = 6 := by
      revert hi
      revert i
      decide
    subst h6
    show (get_events s cap).state.fs_settings = s.fs_settings ∧
      ∀ j, (settings j).support_stat = true →
        (get_events s cap).state.setting_stat j = s.setting_stat j
    unfold get_events
    split
    · split
      · refine ⟨by rw [update_events_stat_fs], fun j hj => ?_⟩
        rw [update_events_stat_other _ j (support_stat_ne_events j hj)]
      · refine ⟨by rw [update_events_stat_fs], fun j hj => ?_⟩
        rw [update_events_stat_other _ j (support_stat_ne_events j hj)]
    · refine ⟨by rw [update_events_stat_fs], fun j hj => ?_⟩
      rw [update_events_stat_other _ j (support_stat_ne_events j hj)]

theorem event_writev_frame (iov : List (List Char)) (tm : Int) (s s1 : State)
    (h : event_writev iov tm s = some s1) :
    s1.fs_settings = s.fs_settings ∧
    ∀ j, (settings j).support_stat = true → s1.setting_stat j = s.setting_stat j := by
  unfold event_writev at h
  simp only at h
  split at h
  · injection h with h
    subst h
    refine ⟨by rw [update_events_stat_fs], fun j hj => ?_⟩
    rw [update_events_stat_other _ j (support_stat_ne_events j hj)]
  · exact absurd h (by simp)

/-! ## `init_settings` -/

theorem init_settings_row_fs (env : Env) (tm : Int) (s : State) (i : Fin SETTINGSCNT) :
    (init_settings_row env tm s i).fs_settings = s.fs_settings ∧
    (init_settings_row env tm s i).events = s.events ∧
    (init_settings_row env tm s i).names_init = s.names_init ∧
    (init_settings_row env tm s i).cache_resets = s.cache_resets ∧
    (init_settings_row env tm s i).settings_stat = s.settings_stat := by
  unfold init_settings_row
  by_cases hi : (settings i).support_stat = true
  · simp only [hi, if_true, getter_state i hi]
    simp
  · simp only [hi]
    simp

theorem init_settings_row_other (env : Env) (tm : Int) (s : State) (i j : Fin SETTINGSCNT)
    (hj : j ≠ i) : (init_settings_row env tm s i).setting_stat j = s.setting_stat j := by
  unfold init_settings_row
  by_cases hi : (settings i).support_stat = true
  · simp only [hi, if_true, getter_state i hi]
    exact Function.update_noteq hj _ _
  · simp only [hi]
    exact Function.update_noteq hj _ _

theorem getter_sz_names (i : Fin SETTINGSCNT) (hi : (settings i).support_stat = true)
    (s : State) (names : Fin (SETTINGSCNT + 1) → Option CStr) (cap : Nat) :
    ((settings i).get { s with setting_names := names } cap).sz = ((settings i).get s cap).sz :=
  getter_sz_congr i hi _ s cap cap rfl

theorem getter_sz_stat (i : Fin SETTINGSCNT) (hi : (settings i).support_stat = true)
    (s : State) (f : Fin SETTINGSCNT → stat) (d : stat) (cap : Nat) :
    ((settings i).get { s with setting_stat := f, settings_stat := d } cap).sz
      = ((settings i).get s cap).sz :=
  getter_sz_congr i hi _ s cap cap rfl

theorem init_settings_row_self (env : Env) (tm : Int) (s : State) (i : Fin SETTINGSCNT) :
    (init_settings_row env tm s i).setting_stat i =
      { st_ctime := tm, st_mtime := tm, st_mode := S_IFREG_0644, st_nlink := 1,
        st_size := if (settings i).support_stat = true then ((settings i).get s 1024).sz else 0,
        st_blocks :=
          ((if (settings i).support_stat = true then ((settings i).get s 1024).sz else 0) + 511)
            / 512,
        st_blksize := env.FS_BLOCK_SIZE, st_uid := env.myuid, st_gid := env.mygid } := by
  unfold init_settings_row
  by_cases hi : (settings i).support_stat = true
  · simp only [hi, if_true, getter_state i hi, Function.update_same, getter_sz_names i hi]
  · simp only [hi, Function.update_same]
    rfl

theorem init_rows_fs (env : Env) (tm : Int) (l : List (Fin SETTINGSCNT)) (s : State) :
    (l.foldl (init_settings_row env tm) s).fs_settings = s.fs_settings ∧
    (l.foldl (init_settings_row env tm) s).events = s.events ∧
    (l.foldl (init_settings_row env tm) s).names_init = s.names_init ∧
    (l.foldl (init_settings_row env tm) s).cache_resets = s.cache_resets ∧
    (l.foldl (init_settings_row env tm) s).settings_stat = s.settings_stat := by
  induction l generalizing s with
  | nil => exact ⟨rfl, rfl, rfl, rfl, rfl⟩
  | cons a l ih =>
    have h1 := ih (init_settings_row env tm s a)
    have h2 := init_settings_row_fs env tm s a
    simp only [List.foldl_cons]
    exact ⟨h1.1.trans h2.1, h1.2.1.trans h2.2.1, h1.2.2.1.trans h2.2.2.1,
      h1.2.2.2.1.trans h2.2.2.2.1, h1.2.2.2.2.trans h2.2.2.2.2⟩

theorem init_rows_other (env : Env) (tm : Int) (l : List (Fin SETTINGSCNT)) (s : State)
    (j : Fin SETTINGSCNT) (hj : j ∉ l) :
    (l.foldl (init_settings_row env tm) s).setting_stat j = s.setting_stat j := by
  induction l generalizing s with
  | nil => rfl
  | cons a l ih =>
    simp only [List.mem_cons, not_or] at hj
    simp only [List.foldl_cons]
    rw [ih _ hj.2, init_settings_row_other env tm s a j hj.1]

theorem init_rows_self (env : Env) (tm : Int) (l : List (Fin SETTINGSCNT)) (hl : l.Nodup)
    (s : State) (i : Fin SETTINGSCNT) (hi : i ∈ l) :
    (l.foldl (init_settings_row env tm) s).setting_stat i =
      { st_ctime := tm, st_mtime := tm, st_mode := S_IFREG_0644, st_nlink := 1,
        st_size := if (settings i).support_stat = true then ((settings i).get s 1024).sz else 0,
        st_blocks :=
          ((if (settings i).support_stat = true then ((settings i).get s 1024).sz else 0) + 511)
            / 512,
        st_blksize := env.FS_BLOCK_SIZE, st_uid := env.myuid, st_gid := env.mygid } := by
  induction l generalizing s with
  | nil => exact absurd hi (List.not_mem_nil i)
  | cons a l ih =>
    simp only [List.foldl_cons]
    have hnd := List.nodup_cons.1 hl
    by_cases hia : i = a
    · subst hia
      rw [init_rows_other env tm l _ i hnd.1, init_settings_row_self]
    · have hil : i ∈ l := by
        rcases List.mem_cons.1 hi with h | h
        · exact absurd h hia
        · exact h
      rw [ih hnd.2 _ hil]
      by_cases hs : (settings i).support_stat = true
      · simp only [hs, if_true]
        rw [getter_sz_congr i hs (init_settings_row env tm s a) s 1024 1024
          (init_settings_row_fs env tm s a).1]
      · simp [hs]

/-- The record `init_settings` leaves for a scalar row: the length its getter
reports as size, mode `S_IFREG | 0644`, one link. -/
theorem init_settings_stat (env : Env) (tm : Int) (s : State) (i : Fin SETTINGSCNT)
    (hi : (settings i).support_stat = true) :
    (init_settings env tm s).setting_stat i =
      { st_ctime := tm, st_mtime := tm, st_mode := S_IFREG_0644, st_nlink := 1,
        st_size := ((settings i).get s 1024).sz,
        st_blocks := (((settings i).get s 1024).sz + 511) / 512,
        st_blksize := env.FS_BLOCK_SIZE, st_uid := env.myuid, st_gid := env.mygid } := by
  unfold init_settings
  simp only
  rw [update_events_stat_other _ i (support_stat_ne_events i hi)]
  show ((List.finRange SETTINGSCNT).foldl (init_settings_row env tm) _).setting_stat i = _
  rw [init_rows_self env tm _ (List.nodup_finRange _) _ i (List.mem_finRange i)]
  simp only [hi, if_true, getter_sz_stat i hi]

theorem init_settings_fs (env : Env) (tm : Int) (s : State) :
    (init_settings env tm s).fs_settings = s.fs_settings ∧
    (init_settings env tm s).events = s.events ∧
    (init_settings env tm s).names_init = 1 ∧
    (init_settings env tm s).cache_resets = s.cache_resets := by
  unfold init_settings
  simp only
  have h := init_rows_fs env tm (List.finRange SETTINGSCNT)
    { s with setting_stat := fun _ => stat_zero, settings_stat := stat_zero }
  refine ⟨?_, ?_, ?_, ?_⟩
  · rw [update_events_stat_fs]
    exact h.1
  · rw [update_events_stat_events]
    exact h.2.1
  · trivial
  · rw [update_events_stat_eq]
    exact h.2.2.2.1

/-- After a `set_setting` that returns 0 the size in the metadata of the row
is the length its getter reports, from any state. -/
theorem set_setting_resync (env : Env) (name val : CStr) (vallen : Nat) (s : State)
    (id : Fin SETTINGSCNT) (hid : get_setting_id name = some id)
    (h0 : (set_setting env name val vallen s).1 = 0) (cap : Nat) :
    ((set_setting env name val vallen s).2.setting_stat id).st_size
      = ((settings id).get (set_setting env name val vallen s).2 cap).sz := by
  have hr := set_setting_ret env name val vallen s id hid
  rw [h0] at hr
  have hsup := setter_ok_support_stat id env val vallen s hr.symm
  rw [set_setting_of_id env name val vallen s id hid, if_pos hr.symm]
  simp only [Function.update_same]
  exact getter_sz_congr id hsup _ _ 4096 cap rfl

/-- In every state reached after `init_settings` the size recorded for a
scalar row is the length its getter reports. -/
theorem reachable_stat_size (env : Env) (s : State) (h : Reachable env s)
    (i : Fin SETTINGSCNT) (hi : (settings i).support_stat = true) (cap : Nat) :
    (s.setting_stat i).st_size = ((settings i).get s cap).sz := by
  induction h generalizing cap with
  | init tm s0 =>
    rw [init_settings_stat env tm s0 i hi]
    exact getter_sz_congr i hi _ _ 1024 cap (init_settings_fs env tm s0).1.symm
  | set_setting name val vallen s _ ih =>
    cases hid : get_setting_id name with
    | none =>
      rw [set_setting_of_none env name val vallen s hid]
      exact ih cap
    | some id =>
      by_cases h0 : (set_setting env name val vallen s).1 = 0
      · by_cases hii : i = id
        · subst hii
          exact set_setting_resync env name val vallen s i hid h0 cap
        · have hr := set_setting_ret env name val vallen s id hid
          rw [h0] at hr
          have e1 : ((set_setting env name val vallen s).2.setting_stat i)
              = s.setting_stat i := by
            rw [set_setting_of_id env name val vallen s id hid, if_pos hr.symm]
            simp only
            rw [Function.update_noteq hii, (setter_frame id env val vallen s).2.2.1]
          have e2 : ((settings i).get (set_setting env name val vallen s).2 cap).sz
              = ((settings i).get ((settings id).set env val vallen s).2 cap).sz :=
            getter_sz_congr i hi _ _ cap cap (set_setting_fs env name val vallen s id hid)
          rw [e1, e2, getter_sz_other_setter id i hii hi env val vallen s cap]
          exact ih cap
      · have hr := set_setting_ret env name val vallen s id hid
        have hne : ¬ ((settings id).set env val vallen s).1 = 0 := fun hc => h0 (hr.trans hc)
        rw [set_setting_of_id env name val vallen s id hid, if_neg hne]
        exact ih cap
  | get_setting name vallen s _ ih =>
    cases hid : get_setting_id name with
    | none =>
      simp only [get_setting, hid]
      exact ih cap
    | some id =>
      simp only [get_setting, hid]
      have hf := getter_frame id s vallen
      rw [hf.2 i hi, getter_sz_congr i hi _ s cap cap hf.1]
      exact ih cap
  | event_writev iov tm s s1 _ hw ih =>
    have hf := event_writev_frame iov tm s s1 hw
    rw [hf.2 i hi, getter_sz_congr i hi s1 s cap cap hf.1]
    exact ih cap

theorem get_setting_of_row (i : Fin SETTINGSCNT) (cap : Nat) (s : State) :
    get_setting (settings i).name cap s = (0, (settings i).get s cap) := by
  simp only [get_setting, settings_name, get_setting_id_name]

/-- C7: in every state reached after `init_settings` by calls of
`set_setting`, `get_setting` and `event_writev`, for each of the six scalar
rows (those flagged `support_stat`: `page_size`, `cache_size`,
`readahead_min`, `readahead_max`, `readahead_max_sec`, `use_ssl`)
`get_setting` of the row's name returns 0 and the `st_size` recorded for the
row is the length that `get_setting` reports, whatever the capacity. -/
theorem metadata_resync (env : Env) (s : State) (h : Reachable env s)
    (i : Fin SETTINGSCNT) (hi : (settings i).support_stat = true) (cap : Nat) :
    (get_setting (settings i).name cap s).1 = 0 ∧
    (s.setting_stat i).st_size = (get_setting (settings i).name cap s).2.sz := by
  rw [get_setting_of_row]
  exact ⟨rfl, reachable_stat_size env s h i hi cap⟩

theorem metadata_resync_witness :
    Reachable ⟨1073741824, 4096, 0, 0⟩
      (set_setting ⟨1073741824, 4096, 0, 0⟩ "page_size".toList "8192".toList 4
        (init_settings ⟨1073741824, 4096, 0, 0⟩ 0
          ⟨⟨4096, 65536, 10, 20, 0, 0⟩, [], fun _ => none, fun _ => stat_zero, stat_zero,
            0, 0⟩)).2 ∧
    (settings 0).support_stat = true ∧
    (((set_setting ⟨1073741824, 4096, 0, 0⟩ "page_size".toList "8192".toList 4
        (init_settings ⟨1073741824, 4096, 0, 0⟩ 0
          ⟨⟨4096, 65536, 10, 20, 0, 0⟩, [], fun _ => none, fun _ => stat_zero, stat_zero,
            0, 0⟩)).2.setting_stat 0).st_size
      = (get_setting (settings 0).name 64
          (set_setting ⟨1073741824, 4096, 0, 0⟩ "page_size".toList "8192".toList 4
            (init_settings ⟨1073741824, 4096, 0, 0⟩ 0
              ⟨⟨4096, 65536, 10, 20, 0, 0⟩, [], fun _ => none, fun _ => stat_zero, stat_zero,
                0, 0⟩)).2).2.sz) :=
  ⟨Reachable.set_setting _ _ _ _ (Reachable.init _ _), rfl,
    (metadata_resync ⟨1073741824, 4096, 0, 0⟩ _
      (Reachable.set_setting "page_size".toList "8192".toList 4 _ (Reachable.init 0
        ⟨⟨4096, 65536, 10, 20, 0, 0⟩, [], fun _ => none, fun _ => stat_zero, stat_zero, 0, 0⟩))
      0 rfl 64).2⟩

/-! ## `get_setting_stat` -/

/-- C8 (as stated, refuted): `get_setting_stat` of the bare descriptor name
`page_size` returns NULL, and of `xpage_size`, which is no descriptor name,
it returns the record of `page_size`. -/
theorem get_setting_stat_basename_counterexample :
    (get_setting_stat ⟨1073741824, 4096, 0, 0⟩ 0 "page_size".toList
      ⟨⟨4096, 65536, 10, 20, 0, 0⟩, [], fun _ => none, fun _ => stat_zero, stat_zero, 0, 0⟩).2
      = stat_ptr.NULL ∧
    (get_setting_stat ⟨1073741824, 4096, 0, 0⟩ 0 "xpage_size".toList
      ⟨⟨4096, 65536, 10, 20, 0, 0⟩, [], fun _ => none, fun _ => stat_zero, stat_zero, 0, 0⟩).2
      = stat_ptr.setting_stat 0 := by
  constructor <;> decide

/-- C8 (amended): `get_setting_stat("")` returns the directory record; of a
non-empty name the first character is skipped and the rest is looked up by
exact match: for every character `c` and every row `i` the name `c` followed
by the row's name gives the record of row `i`, and a name whose rest equals
no row's name gives NULL. The state is initialised first when `names_init`
is 0 and is otherwise left alone. -/
theorem get_setting_stat_lookup (env : Env) (tm : Int) (s : State) :
    (get_setting_stat env tm [] s).2 = stat_ptr.settings_stat ∧
    (∀ (c : Char) (i : Fin SETTINGSCNT),
      (get_setting_stat env tm (c :: (settings i).name) s).2 = stat_ptr.setting_stat i) ∧
    (∀ (c : Char) (rest : CStr), (∀ i, rest ≠ (settings i).name) →
      (get_setting_stat env tm (c :: rest) s).2 = stat_ptr.NULL) ∧
    (∀ name : CStr, (get_setting_stat env tm name s).1
      = if s.names_init = 0 then init_settings env tm s else s) := by
  refine ⟨rfl, ?_, ?_, ?_⟩
  · intro c i
    simp only [get_setting_stat, settings_name, get_setting_id_name]
  · intro c rest h
    have : get_setting_id rest = none :=
      get_setting_id_none rest (fun i => by rw [← settings_name]; exact h i)
    simp only [get_setting_stat, this]
  · intro name
    unfold get_setting_stat
    cases name with
    | nil => rfl
    | cons c rest =>
      simp only
      cases get_setting_id rest <;> rfl

theorem get_setting_stat_lookup_witness :
    (∀ i, "age_size".toList ≠ (settings i).name) ∧
    (get_setting_stat ⟨1073741824, 4096, 0, 0⟩ 0 ('/' :: (settings 0).name)
      ⟨⟨4096, 65536, 10, 20, 0, 0⟩, [], fun _ => none, fun _ => stat_zero, stat_zero, 0, 0⟩).2
      = stat_ptr.setting_stat 0 ∧
    (get_setting_stat ⟨1073741824, 4096, 0, 0⟩ 0 ('p' :: "age_size".toList)
      ⟨⟨4096, 65536, 10, 20, 0, 0⟩, [], fun _ => none, fun _ => stat_zero, stat_zero, 0, 0⟩).2
      = stat_ptr.NULL :=
  ⟨by decide,
    (get_setting_stat_lookup ⟨1073741824, 4096, 0, 0⟩ 0
      ⟨⟨4096, 65536, 10, 20, 0, 0⟩, [], fun _ => none, fun _ => stat_zero, stat_zero, 0, 0⟩).2.1
      '/' 0,
    (get_setting_stat_lookup ⟨1073741824, 4096, 0, 0⟩ 0
      ⟨⟨4096, 65536, 10, 20, 0, 0⟩, [], fun _ => none, fun _ => stat_zero, stat_zero, 0, 0⟩).2.2.1
      'p' "age_size".toList (by decide)⟩

/-! ## The read-only row and unknown names -/

/-- C9: `set_setting("events", text)` returns `-EINVAL`, and for a name that
is none of the seven names of the table `set_setting` and `get_setting`
return `-ENOENT`; in all three cases the state (parameters, metadata, event
queue) is the one before the call, and `get_setting` stores nothing and
leaves `*vallen` as it was. -/
theorem events_read_only_unknown_not_found (env : Env) (name text : CStr) (vallen cap : Nat)
    (s : State) (hname : ∀ i, name ≠ (settings i).name) :
    set_setting env "events".toList text vallen s = (-EINVAL, s) ∧
    set_setting env name text vallen s = (-ENOENT, s) ∧
    get_setting name cap s = (-ENOENT, ⟨s, [], cap⟩) := by
  have hnone : get_setting_id name = none :=
    get_setting_id_none name (fun i => by rw [← settings_name]; exact hname i)
  refine ⟨?_, set_setting_of_none env name text vallen s hnone, ?_⟩
  · rw [set_setting_of_id env _ text vallen s 6 (by decide)]
    rfl
  · simp only [get_setting, hnone]

theorem events_read_only_unknown_not_found_witness :
    (∀ i, "unknown_name".toList ≠ (settings i).name) ∧
    set_setting ⟨1073741824, 4096, 0, 0⟩ "events".toList "anything".toList 8
      ⟨⟨4096, 65536, 10, 20, 0, 0⟩, [], fun _ => none, fun _ => stat_zero, stat_zero, 0, 0⟩
      = (-EINVAL,
        ⟨⟨4096, 65536, 10, 20, 0, 0⟩, [], fun _ => none, fun _ => stat_zero, stat_zero, 0, 0⟩) ∧
    set_setting ⟨1073741824, 4096, 0, 0⟩ "unknown_name".toList "anything".toList 8
      ⟨⟨4096, 65536, 10, 20, 0, 0⟩, [], fun _ => none, fun _ => stat_zero, stat_zero, 0, 0⟩
      = (-ENOENT,
        ⟨⟨4096, 65536, 10, 20, 0, 0⟩, [], fun _ => none, fun _ => stat_zero, stat_zero, 0, 0⟩) :=
  have h := events_read_only_unknown_not_found ⟨1073741824, 4096, 0, 0⟩ "unknown_name".toList
    "anything".toList 8 16
    ⟨⟨4096, 65536, 10, 20, 0, 0⟩, [], fun _ => none, fun _ => stat_zero, stat_zero, 0, 0⟩
    (by decide)
  ⟨by decide, h.1, h.2.1⟩

/-! ## Reading the event stream -/

theorem get_setting_events (cap : Nat) (s : State) :
    get_setting "events".toList cap s = (0, get_events s cap) := by
  have hid : get_setting_id "events".toList = some 6 := by decide
  simp only [get_setting, hid]
  rfl

/-- C10: one `get_setting("events")` with capacity `c`. On an empty queue it
stores nothing and reports 0 bytes. On a queue with head `e` of `r = e.sz`
remaining bytes: if `r <= c` it stores exactly those `r` bytes, reports `r`,
and the queue is the old one without its head; if `r > c` it stores exactly
the first `c` remaining bytes, reports `c`, and the queue is the old one
with the head's remaining bytes replaced by the last `r - c` of them (same
time stamp), the later events unchanged. With A of 10 bytes and B of 5
bytes queued, reads with capacities 6, 100, 100, 100 give the first 6
bytes of A, the last 4 bytes of A, B, and 0 bytes. -/
theorem get_events_one_read (cap : Nat) (s : State) (e : event) (rest : List event) :
    ((get_setting "events".toList cap { s with events := [] }).1 = 0 ∧
      (get_setting "events".toList cap { s with events := [] }).2.data = [] ∧
      (get_setting "events".toList cap { s with events := [] }).2.sz = 0 ∧
      (get_setting "events".toList cap { s with events := [] }).2.state.events = []) ∧
    ((get_setting "events".toList cap { s with events := e :: rest }).1 = 0 ∧
      (get_setting "events".toList cap { s with events := e :: rest }).2.data
        = (if e.sz ≤ cap then e.ptr else e.ptr.take cap) ∧
      (get_setting "events".toList cap { s with events := e :: rest }).2.sz
        = (if e.sz ≤ cap then e.sz else cap) ∧
      (get_setting "events".toList cap { s with events := e :: rest }).2.state.events
        = (if e.sz ≤ cap then rest else ⟨e.ptr.drop cap, e.tm⟩ :: rest) ∧
      (get_setting "events".toList cap { s with events := e :: rest }).2.data.length
        = (get_setting "events".toList cap { s with events := e :: rest }).2.sz ∧
      (e.ptr.drop cap).length = e.sz - cap ∧
      e.ptr.take cap ++ e.ptr.drop cap = e.ptr) ∧
    (let a : event := ⟨"0123456789".toList, 100⟩
      let b : event := ⟨"abcde".toList, 101⟩
      let r1 := get_setting "events".toList 6 { s with events := [a, b] }
      let r2 := get_setting "events".toList 100 r1.2.state
      let r3 := get_setting "events".toList 100 r2.2.state
      let r4 := get_setting "events".toList 100 r3.2.state
      (r1.2.data = "012345".toList ∧ r1.2.sz = 6) ∧
      (r2.2.data = "6789".toList ∧ r2.2.sz = 4) ∧
      (r3.2.data = "abcde".toList ∧ r3.2.sz = 5) ∧
      (r4.2.data = [] ∧ r4.2.sz = 0)) := by
  refine ⟨?_, ?_, ?_⟩
  · rw [get_setting_events]
    simp only [get_events]
    refine ⟨?_, ?_, ?_, ?_⟩ <;> trivial
  · rw [get_setting_events]
    simp only [get_events]
    by_cases h : e.sz ≤ cap
    · simp only [h, if_true]
      refine ⟨?_, ?_, ?_, ?_, ?_, ?_, ?_⟩
      · trivial
      · trivial
      · trivial
      · trivial
      · trivial
      · simp only [List.length_drop, event.sz]
      · exact List.take_append_drop cap e.ptr
    · simp only [h, if_false]
      have hlen : cap ≤ e.ptr.length := by
        have : ¬ e.ptr.length ≤ cap := h
        omega
      refine ⟨?_, ?_, ?_, ?_, ?_, ?_, ?_⟩
      · trivial
      · trivial
      · trivial
      · rw [update_events_stat_events]
      · simp only [List.length_take]
        omega
      · simp only [List.length_drop, event.sz]
      · exact List.take_append_drop cap e.ptr
  · intro a b r1 r2 r3 r4
    have e1 : r1.2.state.events = [⟨"6789".toList, 100⟩, b] := by
      show (get_setting "events".toList 6 { s with events := [a, b] }).2.state.events = _
      rw [get_setting_events]
      simp only [get_events]
      rw [if_neg (by decide), update_events_stat_events]
      rfl
    have d1 : r1.2.data = "012345".toList ∧ r1.2.sz = 6 := by
      show (get_setting "events".toList 6 { s with events := [a, b] }).2.data = _ ∧
        (get_setting "events".toList 6 { s with events := [a, b] }).2.sz = _
      rw [get_setting_events]
      simp only [get_events]
      rw [if_neg (by decide)]
      constructor <;> trivial
    have h2 : r2.2.data = "6789".toList ∧ r2.2.sz = 4 ∧ r2.2.state.events = [b] := by
      show (get_setting "events".toList 100 r1.2.state).2.data = _ ∧
        (get_setting "events".toList 100 r1.2.state).2.sz = _ ∧
        (get_setting "events".toList 100 r1.2.state).2.state.events = _
      rw [get_setting_events]
      simp only [get_events, e1]
      rw [if_pos (by decide)]
      refine ⟨?_, ?_, ?_⟩ <;> trivial
    have h3 : r3.2.data = "abcde".toList ∧ r3.2.sz = 5 ∧ r3.2.state.events = [] := by
      show (get_setting "events".toList 100 r2.2.state).2.data = _ ∧
        (get_setting "events".toList 100 r2.2.state).2.sz = _ ∧
        (get_setting "events".toList 100 r2.2.state).2.state.events = _
      rw [get_setting_events]
      simp only [get_events, h2.2.2]
      rw [if_pos (by decide)]
      refine ⟨?_, ?_, ?_⟩ <;> trivial
    have h4 : r4.2.data = [] ∧ r4.2.sz = 0 := by
      show (get_setting "events".toList 100 r3.2.state).2.data = _ ∧
        (get_setting "events".toList 100 r3.2.state).2.sz = _
      rw [get_setting_events]
      simp only [get_events, h3.2.2]
      constructor <;> trivial
    exact ⟨d1, ⟨h2.1, h2.2.1⟩, ⟨h3.1, h3.2.1⟩, h4⟩

/-! ## The sweep of `event_writev` -/

/-- For a clock value at least `EVENT_EXPIRE` above `LONG_MIN` the machine
subtraction is the exact one. -/
theorem expire_before_eq (tm : Int) (h1 : LONG_MIN + EVENT_EXPIRE ≤ tm) (h2 : tm ≤ LONG_MAX) :
    expire_before tm = tm - EVENT_EXPIRE := by
  unfold expire_before
  unfold LONG_MIN EVENT_EXPIRE at h1
  unfold LONG_MAX at h2
  unfold EVENT_EXPIRE
  omega

theorem not_expired_self (ptr : List Char) (tm : Int)
    (h1 : LONG_MIN + EVENT_EXPIRE ≤ tm) (h2 : tm ≤ LONG_MAX) :
    expired tm ⟨ptr, tm⟩ = false := by
  simp [expired, expire_before_eq tm h1 h2, EVENT_EXPIRE]

/-- The loop over a queue that ends with a fresh event drops the expired
events at the head and stops; it never reaches the empty queue. -/
theorem expire_loop_append (tm : Int) (q : List event) (e : event) (he : expired tm e = false) :
    expire_loop tm (q ++ [e]) = some (q.dropWhile (expired tm) ++ [e]) := by
  induction q with
  | nil =>
    have h : ¬ e.tm < expire_before tm := by simpa [expired] using he
    simp [expire_loop, h]
  | cons a q ih =>
    by_cases ha : a.tm < expire_before tm
    · have hx : expired tm a = true := by simp [expired, ha]
      show expire_loop tm (a :: (q ++ [e])) = _
      rw [List.dropWhile_cons_of_pos hx, ← ih]
      simp only [expire_loop, ha, if_true]
    · have hx : ¬ expired tm a = true := by simp [expired, ha]
      show expire_loop tm (a :: (q ++ [e])) = _
      rw [List.dropWhile_cons_of_neg hx]
      simp only [expire_loop, ha, if_false]
      rfl

/-- When the last event tests as expired too and nothing before it stops the
loop, the loop empties the queue and reads through NULL. -/
theorem expire_loop_all_expired (tm : Int) (q : List event)
    (h : ∀ e ∈ q, expired tm e = true) : expire_loop tm q = none := by
  induction q with
  | nil => rfl
  | cons a q ih =>
    have ha : a.tm < expire_before tm := by
      simpa [expired] using h a (List.mem_cons_self a q)
    simp only [expire_loop, ha, if_true]
    exact ih (fun e he => h e (List.mem_cons_of_mem a he))

/-- Whenever the loop returns, it returns the queue without the expired
events at its head. -/
theorem expire_loop_some (tm : Int) (q : List event) (e : event) (r : List event)
    (h : expire_loop tm (q ++ [e]) = some r) : r = q.dropWhile (expired tm) ++ [e] := by
  by_cases he : expired tm e = true
  · induction q with
    | nil =>
      have hn := expire_loop_all_expired tm [e] (fun x hx => by
        rw [List.mem_singleton.1 hx]
        exact he)
      rw [List.nil_append, hn] at h
      exact absurd h (by simp)
    | cons a q ih =>
      by_cases ha : a.tm < expire_before tm
      · have hx : expired tm a = true := by simp [expired, ha]
        rw [List.dropWhile_cons_of_pos hx]
        apply ih
        have h' : expire_loop tm (a :: (q ++ [e])) = some r := h
        simpa only [expire_loop, ha, if_true] using h'
      · have hx : ¬ expired tm a = true := by simp [expired, ha]
        rw [List.dropWhile_cons_of_neg hx]
        have h' : expire_loop tm (a :: (q ++ [e])) = some r := h
        simp only [expire_loop, ha, if_false, Option.some.injEq] at h'
        exact h'.symm
  · have he' : expired tm e = false := by simpa using he
    rw [expire_loop_append tm q e he'] at h
    injection h with h
    exact h.symm

/-- At a clock value for which `tm-EVENT_EXPIRE` does not wrap `event_writev`
returns: the queue after it is the old one without the expired events at
its head, followed by the new event. -/
theorem event_writev_eq (iov : List (List Char)) (tm : Int) (s : State)
    (h1 : LONG_MIN + EVENT_EXPIRE ≤ tm) (h2 : tm ≤ LONG_MAX) :
    event_writev iov tm s =
      some (update_events_stat
        { s with events := s.events.dropWhile (expired tm) ++ [⟨iov_concat iov, tm⟩] }) := by
  simp only [event_writev, expire_loop_append tm s.events _ (not_expired_self _ tm h1 h2)]

/-- Whenever `event_writev` returns, the state is the old one with the swept
queue and the refreshed size of `events`. -/
theorem event_writev_some (iov : List (List Char)) (tm : Int) (s s1 : State)
    (h : event_writev iov tm s = some s1) :
    s1 = update_events_stat
      { s with events := s.events.dropWhile (expired tm) ++ [⟨iov_concat iov, tm⟩] } := by
  unfold event_writev at h
  simp only at h
  cases hl : expire_loop tm (s.events ++ [⟨iov_concat iov, tm⟩]) with
  | none =>
    rw [hl] at h
    exact absurd h (by simp)
  | some q =>
    rw [hl] at h
    simp only [Option.some.injEq] at h
    rw [← h, expire_loop_some tm s.events _ q hl]

theorem event_writev_events (iov : List (List Char)) (tm : Int) (s s1 : State)
    (h : event_writev iov tm s = some s1) :
    s1.events = s.events.dropWhile (expired tm) ++ [⟨iov_concat iov, tm⟩] := by
  rw [event_writev_some iov tm s s1 h, update_events_stat_events]

theorem update_events_stat_size (s : State) :
    ((update_events_stat s).setting_stat 6).st_size = head_sz s.events := by
  rw [update_events_stat_eq]
  simp only [Function.update_same]
  cases s.events <;> rfl

theorem get_events_nil (s : State) (cap : Nat) (h : s.events = []) :
    get_events s cap = ⟨update_events_stat s, [], 0⟩ := by
  simp only [get_events, h]

theorem get_events_cons (s : State) (cap : Nat) (e : event) (rest : List event)
    (h : s.events = e :: rest) :
    get_events s cap =
      if e.sz ≤ cap then
        ⟨update_events_stat { s with events := rest }, e.ptr, e.sz⟩
      else
        ⟨update_events_stat { s with events := ({ e with ptr := e.ptr.drop cap } : event) :: rest },
          e.ptr.take cap, cap⟩ := by
  simp only [get_events, h]

theorem get_events_events (s : State) (cap : Nat) :
    (get_events s cap).state.events =
      match s.events with
      | [] => []
      | e :: rest => if e.sz ≤ cap then rest else ⟨e.ptr.drop cap, e.tm⟩ :: rest := by
  cases hq : s.events with
  | nil => rw [get_events_nil s cap hq, update_events_stat_events, hq]
  | cons e rest =>
    rw [get_events_cons s cap e rest hq]
    by_cases h : e.sz ≤ cap
    · simp only [h, if_true, update_events_stat_events]
    · simp only [h, if_false, update_events_stat_events]

theorem get_events_data (s : State) (cap : Nat) :
    (get_events s cap).data =
      match s.events with
      | [] => []
      | e :: _ => if e.sz ≤ cap then e.ptr else e.ptr.take cap := by
  cases hq : s.events with
  | nil => rw [get_events_nil s cap hq]
  | cons e rest =>
    rw [get_events_cons s cap e rest hq]
    by_cases h : e.sz ≤ cap
    · simp only [h, if_true]
    · simp only [h, if_false]

/-! ## Bytes are read in order, each once -/

theorem queue_bytes_append (q1 q2 : List event) :
    queue_bytes (q1 ++ q2) = queue_bytes q1 ++ queue_bytes q2 := by
  induction q1 with
  | nil => rfl
  | cons e q ih =>
    show e.ptr ++ queue_bytes (q ++ q2) = (e.ptr ++ queue_bytes q) ++ queue_bytes q2
    rw [ih, List.append_assoc]

/-- One read hands out a prefix of the bytes of the queue and leaves the rest. -/
theorem get_events_bytes (s : State) (cap : Nat) :
    (get_events s cap).data ++ queue_bytes (get_events s cap).state.events
      = queue_bytes s.events := by
  rw [get_events_data, get_events_events]
  cases hq : s.events with
  | nil => rfl
  | cons e rest =>
    by_cases h : e.sz ≤ cap
    · simp only [h, if_true, queue_bytes]
    · simp only [h, if_false, queue_bytes]
      rw [← List.append_assoc, List.take_append_drop]

theorem get_setting_id_events (name : CStr) :
    get_setting_id name = some 6 ↔ name = "events".toList := by
  constructor
  · intro h
    exact get_setting_id_some name 6 h
  · rintro rfl
    decide

theorem set_setting_events (env : Env) (name val : CStr) (vallen : Nat) (s : State) :
    (set_setting env name val vallen s).2.events = s.events := by
  cases hid : get_setting_id name with
  | none => rw [set_setting_of_none env name val vallen s hid]
  | some id =>
    rw [set_setting_of_id env name val vallen s id hid]
    split
    · exact (setter_frame id env val vallen s).1
    · rfl

/-- A `get_setting` of a name other than `events` leaves the queue alone. -/
theorem get_setting_events_other (name : CStr) (cap : Nat) (s : State)
    (h : name ≠ "events".toList) : (get_setting name cap s).2.state.events = s.events := by
  cases hid : get_setting_id name with
  | none => simp only [get_setting, hid]
  | some id =>
    simp only [get_setting, hid]
    have hne : id ≠ 6 := by
      rintro rfl
      exact h ((get_setting_id_events name).1 hid)
    have hall : ∀ j : Fin SETTINGSCNT, j ≠ 6 → (settings j).support_stat = true := by decide
    rw [getter_state id (hall id hne)]

theorem get_setting_bytes (name : CStr) (cap : Nat) (s : State) :
    (if name = "events".toList then (get_setting name cap s).2.data else [])
      ++ queue_bytes (get_setting name cap s).2.state.events = queue_bytes s.events := by
  by_cases h : name = "events".toList
  · subst h
    rw [get_setting_events]
    simp only [if_true]
    exact get_events_bytes s cap
  · simp only [h, if_false, List.nil_append, get_setting_events_other name cap s h]

theorem dropWhile_expired_fresh (tm : Int) (q : List event)
    (h : (match q with
      | [] => true
      | e :: _ => !expired tm e) = true) :
    q.dropWhile (expired tm) = q := by
  cases q with
  | nil => rfl
  | cons e rest =>
    have he : ¬ expired tm e = true := by simpa using h
    exact List.dropWhile_cons_of_neg he

/-- A run in which no sweep finds an expired head: it returns, and the bytes
read followed by the bytes left in the queue are the bytes held at the
start followed by the payloads appended. -/
theorem run_calls_bytes (env : Env) (calls : List call) (s : State)
    (h : no_expiry env calls s = true) :
    ∃ out s1, run_calls env calls s = some (out, s1) ∧
      out ++ queue_bytes s1.events = queue_bytes s.events ++ appended_bytes calls := by
  induction calls generalizing s with
  | nil => exact ⟨[], s, rfl, by simp [appended_bytes]⟩
  | cons c cs ih =>
    cases c with
    | set_setting name val vallen =>
      obtain ⟨out, s1, hr, hb⟩ := ih (set_setting env name val vallen s).2 h
      refine ⟨out, s1, hr, ?_⟩
      rw [hb, set_setting_events]
      rfl
    | get_setting name vallen =>
      obtain ⟨out, s1, hr, hb⟩ := ih (get_setting name vallen s).2.state h
      refine ⟨(if name = "events".toList then (get_setting name vallen s).2.data else []) ++ out,
        s1, by simp only [run_calls, hr], ?_⟩
      rw [List.append_assoc, hb, ← List.append_assoc, get_setting_bytes]
      rfl
    | event_writev iov tm =>
      simp only [no_expiry, Bool.and_eq_true] at h
      cases hev : event_writev iov tm s with
      | none =>
        have h2 := h.2
        rw [hev] at h2
        exact absurd h2 (by simp)
      | some t =>
        have h2 := h.2
        rw [hev] at h2
        obtain ⟨out, s1, hr, hb⟩ := ih t h2
        refine ⟨out, s1, by simp only [run_calls, hev, hr], ?_⟩
        rw [hb, event_writev_events iov tm s t hev]
        simp only [dropWhile_expired_fresh tm s.events h.1, queue_bytes_append, queue_bytes,
          appended_bytes, List.append_nil, List.append_assoc]

/-- C11: in a run of calls (appends by `event_writev`, reads by
`get_setting("events")` with any capacities, other calls in between) in
which no sweep finds an expired head, so that no entry expires, the run
returns, and the bytes returned by the reads, concatenated, followed by the
bytes still held in the queue, are exactly the bytes held at the start
followed by the payloads in append order: what was read is a prefix and the
queue holds the remaining suffix; no byte is returned twice, dropped or
reordered. -/
theorem reads_are_ordered_exactly_once (env : Env) (calls : List call) (s : State)
    (h : no_expiry env calls s = true) :
    ∃ out s1, run_calls env calls s = some (out, s1) ∧
      out ++ queue_bytes s1.events = queue_bytes s.events ++ appended_bytes calls :=
  run_calls_bytes env calls s h

theorem reads_are_ordered_exactly_once_witness :
    no_expiry ⟨1073741824, 4096, 0, 0⟩
      [call.event_writev ["ab".toList, "cd".toList] 10, call.event_writev ["xyz".toList] 20,
        call.get_setting "events".toList 3, call.event_writev ["Q".toList] 3000,
        call.get_setting "events".toList 64]
      ⟨⟨4096, 65536, 10, 20, 0, 0⟩, [], fun _ => none, fun _ => stat_zero, stat_zero, 0, 0⟩
      = true ∧
    ∃ out s1,
      run_calls ⟨1073741824, 4096, 0, 0⟩
        [call.event_writev ["ab".toList, "cd".toList] 10, call.event_writev ["xyz".toList] 20,
          call.get_setting "events".toList 3, call.event_writev ["Q".toList] 3000,
          call.get_setting "events".toList 64]
        ⟨⟨4096, 65536, 10, 20, 0, 0⟩, [], fun _ => none, fun _ => stat_zero, stat_zero, 0, 0⟩
        = some (out, s1) ∧
      out ++ queue_bytes s1.events = [] ++ "abcdxyzQ".toList :=
  ⟨by decide, reads_are_ordered_exactly_once ⟨1073741824, 4096, 0, 0⟩ _ _ (by decide)⟩

/-! ## Expiry -/

/-- On a queue with non-decreasing time stamps the sweep from the head removes
exactly the expired events. -/
theorem dropWhile_expired_sorted (tm : Int) (q : List event)
    (hq : q.Pairwise (fun a b => a.tm ≤ b.tm)) :
    q.dropWhile (expired tm) = q.filter (fun e => !expired tm e) := by
  induction q with
  | nil => rfl
  | cons a rest ih =>
    have hp := List.pairwise_cons.1 hq
    by_cases ha : expired tm a = true
    · rw [List.dropWhile_cons_of_pos ha, ih hp.2, List.filter_cons_of_neg (by simp [ha])]
    · rw [List.dropWhile_cons_of_neg ha, List.filter_cons_of_pos (by simp [ha])]
      congr 1
      symm
      rw [List.filter_eq_self]
      intro b hb
      have hab := hp.1 b hb
      have hna : ¬ a.tm < expire_before tm := by simpa [expired] using ha
      have : ¬ b.tm < expire_before tm := by omega
      simp [expired, this]

theorem event_writev_sorted_spec (iov : List (List Char)) (tm : Int) (s : State)
    (hs : s.events.Pairwise (fun a b => a.tm ≤ b.tm)) :
    (∀ s1, event_writev iov tm s = some s1 →
      s1.events = s.events.filter (fun e => !expired tm e) ++ [⟨iov_concat iov, tm⟩]) ∧
    (LONG_MIN + EVENT_EXPIRE ≤ tm → tm ≤ LONG_MAX →
      ∃ s1, event_writev iov tm s = some s1 ∧
        s1.events = s.events.filter (fun e => !expired tm e) ++ [⟨iov_concat iov, tm⟩] ∧
        s1.events = s.events.filter (fun e => decide (tm - 3600 ≤ e.tm))
          ++ [⟨iov_concat iov, tm⟩] ∧
        ∀ e ∈ s.events, e.tm < tm - 3600 → e ∉ s1.events) := by
  have hpart : ∀ s1, event_writev iov tm s = some s1 →
      s1.events = s.events.filter (fun e => !expired tm e) ++ [⟨iov_concat iov, tm⟩] := by
    intro s1 h
    rw [event_writev_events iov tm s s1 h, dropWhile_expired_sorted tm s.events hs]
  refine ⟨hpart, ?_⟩
  intro h1 h2
  have hev := event_writev_eq iov tm s h1 h2
  have hfil : s.events.filter (fun e => !expired tm e)
      = s.events.filter (fun e => decide (tm - 3600 ≤ e.tm)) := by
    apply List.filter_congr
    intro e _
    by_cases hlt : e.tm < tm - 3600
    · have hle : ¬ tm - 3600 ≤ e.tm := by omega
      simp [expired, expire_before_eq tm h1 h2, EVENT_EXPIRE, hlt, hle]
    · have hle : tm - 3600 ≤ e.tm := by omega
      simp [expired, expire_before_eq tm h1 h2, EVENT_EXPIRE, hlt, hle]
  refine ⟨_, hev, hpart _ hev, by rw [hpart _ hev, hfil], ?_⟩
  intro e _ hexp hmem
  rw [hpart _ hev] at hmem
  have hx : expired tm e = true := by
    simp [expired, expire_before_eq tm h1 h2, EVENT_EXPIRE, hexp]
  rcases List.mem_append.1 hmem with hm | hm
  · have := (List.mem_filter.1 hm).2
    simp [hx] at this
  · have he : e = ⟨iov_concat iov, tm⟩ := by simpa using hm
    rw [he, not_expired_self _ tm h1 h2] at hx
    exact absurd hx (by decide)

/-- C12: on a queue whose time stamps are non-decreasing, whenever
`event_writev` at clock value `tm` returns it leaves the queue equal to the
old entries that the test of the loop does not find expired, in their order
and with their remaining bytes untouched, followed by the new event, which
carries the parts of `iov` one after the other and the time stamp `tm`. At
a clock value for which the `time_t` subtraction `tm - 3600` does not wrap
(`LONG_MIN + 3600 <= tm <= LONG_MAX`, as every value `time` returns)
`event_writev` does return, the entries kept are those not older than
`tm - 3600`, and an old entry with a time stamp below `tm - 3600` is no
longer in the queue, so no later read returns it. -/
theorem expiry_on_append (iov : List (List Char)) (tm : Int) (s : State)
    (hs : s.events.Pairwise (fun a b => a.tm ≤ b.tm)) :
    (∀ s1, event_writev iov tm s = some s1 →
      s1.events = s.events.filter (fun e => !expired tm e) ++ [⟨iov_concat iov, tm⟩]) ∧
    (LONG_MIN + EVENT_EXPIRE ≤ tm → tm ≤ LONG_MAX →
      ∃ s1, event_writev iov tm s = some s1 ∧
        s1.events = s.events.filter (fun e => !expired tm e) ++ [⟨iov_concat iov, tm⟩] ∧
        s1.events = s.events.filter (fun e => decide (tm - 3600 ≤ e.tm))
          ++ [⟨iov_concat iov, tm⟩] ∧
        ∀ e ∈ s.events, e.tm < tm - 3600 → e ∉ s1.events) :=
  event_writev_sorted_spec iov tm s hs

theorem expiry_on_append_witness :
    List.Pairwise (fun a b : event => a.tm ≤ b.tm) [⟨"old".toList, 100⟩, ⟨"mid".toList, 2000⟩] ∧
    (LONG_MIN + EVENT_EXPIRE ≤ 3701 ∧ (3701 : Int) ≤ LONG_MAX) ∧
    ∃ s1, event_writev ["new".toList] 3701
        ⟨⟨4096, 65536, 10, 20, 0, 0⟩, [⟨"old".toList, 100⟩, ⟨"mid".toList, 2000⟩],
          fun _ => none, fun _ => stat_zero, stat_zero, 0, 0⟩ = some s1 ∧
      s1.events = List.filter (fun e => !expired 3701 e)
        [⟨"old".toList, 100⟩, ⟨"mid".toList, 2000⟩] ++ [⟨iov_concat ["new".toList], 3701⟩] :=
  have h := (expiry_on_append ["new".toList] 3701
    ⟨⟨4096, 65536, 10, 20, 0, 0⟩, [⟨"old".toList, 100⟩, ⟨"mid".toList, 2000⟩],
      fun _ => none, fun _ => stat_zero, stat_zero, 0, 0⟩ (by decide)).2 (by decide) (by decide)
  ⟨by decide, ⟨by decide, by decide⟩, h.elim (fun s1 h1 => ⟨s1, h1.1, h1.2.1⟩)⟩

theorem dropWhile_expired_all (tm : Int) (q : List event)
    (h : ∀ e ∈ q, expired tm e = true) : q.dropWhile (expired tm) = [] := by
  induction q with
  | nil => rfl
  | cons a rest ih =>
    rw [List.dropWhile_cons_of_pos (h a (List.mem_cons_self a rest))]
    exact ih (fun e he => h e (List.mem_cons_of_mem a he))

/-- The loop itself has no test for the empty queue: run on one it reads
through NULL. `event_writev` runs it on the queue with the new event at
its end. -/
theorem expire_loop_nil (tm : Int) : expire_loop tm [] = none :=
  rfl

theorem event_writev_safe_spec (iov : List (List Char)) (tm : Int) (s : State)
    (h1 : LONG_MIN + EVENT_EXPIRE ≤ tm) (h2 : tm ≤ LONG_MAX) :
    expire_loop tm (s.events ++ [⟨iov_concat iov, tm⟩])
      = some (s.events.dropWhile (expired tm) ++ [⟨iov_concat iov, tm⟩]) ∧
    ∃ s1, event_writev iov tm s = some s1 ∧
      s1.events = s.events.dropWhile (expired tm) ++ [⟨iov_concat iov, tm⟩] ∧
      s1.events ≠ [] ∧
      ((∀ e ∈ s.events, e.tm < tm - EVENT_EXPIRE) → s1.events = [⟨iov_concat iov, tm⟩]) := by
  refine ⟨expire_loop_append tm s.events _ (not_expired_self _ tm h1 h2), _,
    event_writev_eq iov tm s h1 h2, ?_, ?_, ?_⟩
  · rw [update_events_stat_events]
  · rw [update_events_stat_events]
    simp
  · intro h
    rw [update_events_stat_events, dropWhile_expired_all tm s.events]
    · rfl
    · intro e he
      simp [expired, expire_before_eq tm h1 h2, h e he]

/-- C13 (as stated, refuted): at the clock value `LONG_MIN + 100` the 64-bit
subtraction `tm-EVENT_EXPIRE` wraps to a large positive value, the event
just appended tests as expired and is swept, and the loop then reads the
head of the empty queue: on the empty queue `event_writev` does not
return. -/
theorem sweep_reads_empty_queue_counterexample :
    expire_before (LONG_MIN + 100) = LONG_MAX - 3499 ∧
    expire_loop (LONG_MIN + 100) ([] ++ [⟨iov_concat ["x".toList], LONG_MIN + 100⟩]) = none ∧
    event_writev ["x".toList] (LONG_MIN + 100)
      ⟨⟨4096, 65536, 10, 20, 0, 0⟩, [], fun _ => none, fun _ => stat_zero, stat_zero, 0, 0⟩
      = none := by
  have hl : expire_loop (LONG_MIN + 100) ([] ++ [⟨iov_concat ["x".toList], LONG_MIN + 100⟩])
      = none := by decide
  refine ⟨by decide, hl, ?_⟩
  simp only [event_writev, hl]

/-- C13 (amended): for every queue, also the empty one, and every clock value
`tm` for which the `time_t` subtraction `tm - 3600` does not wrap
(`LONG_MIN + 3600 <= tm <= LONG_MAX`, as every value `time` returns), the
loop of `event_writev` runs on the queue with the new event at its end and
never reads the head of an empty queue (the model's `none`): it returns
the old queue without the expired events at its head, followed by the new
event, so `event_writev` returns and its queue is never empty; when every
old entry is expired, whatever its age, the loop stops with the new event
alone. The loop has no test for the empty queue; it stops at the new
event at the latest. -/
theorem sweep_never_reads_empty_queue (iov : List (List Char)) (tm : Int) (s : State)
    (h1 : LONG_MIN + EVENT_EXPIRE ≤ tm) (h2 : tm ≤ LONG_MAX) :
    expire_loop tm (s.events ++ [⟨iov_concat iov, tm⟩])
      = some (s.events.dropWhile (expired tm) ++ [⟨iov_concat iov, tm⟩]) ∧
    ∃ s1, event_writev iov tm s = some s1 ∧
      s1.events = s.events.dropWhile (expired tm) ++ [⟨iov_concat iov, tm⟩] ∧
      s1.events ≠ [] ∧
      ((∀ e ∈ s.events, e.tm < tm - EVENT_EXPIRE) → s1.events = [⟨iov_concat iov, tm⟩]) :=
  event_writev_safe_spec iov tm s h1 h2

theorem sweep_never_reads_empty_queue_witness :
    (LONG_MIN + EVENT_EXPIRE ≤ 5000 ∧ (5000 : Int) ≤ LONG_MAX) ∧
    ∃ s1, event_writev ["new".toList] 5000
        ⟨⟨4096, 65536, 10, 20, 0, 0⟩, [⟨"old".toList, 100⟩, ⟨"older".toList, 200⟩],
          fun _ => none, fun _ => stat_zero, stat_zero, 0, 0⟩ = some s1 ∧
      s1.events ≠ [] :=
  have h := (sweep_never_reads_empty_queue ["new".toList] 5000
    ⟨⟨4096, 65536, 10, 20, 0, 0⟩, [⟨"old".toList, 100⟩, ⟨"older".toList, 200⟩],
      fun _ => none, fun _ => stat_zero, stat_zero, 0, 0⟩ (by decide) (by decide)).2
  ⟨⟨by decide, by decide⟩, h.elim (fun s1 h1 => ⟨s1, h1.1, h1.2.2.1⟩)⟩

/-! ## The size of `events` follows the head of the queue -/

theorem get_events_state (s : State) (cap : Nat) :
    ∃ t, (get_events s cap).state = update_events_stat t := by
  cases hq : s.events with
  | nil => exact ⟨s, by rw [get_events_nil s cap hq]⟩
  | cons e rest =>
    rw [get_events_cons s cap e rest hq]
    by_cases h : e.sz ≤ cap
    · rw [if_pos h]
      exact ⟨_, rfl⟩
    · rw [if_neg h]
      exact ⟨_, rfl⟩

theorem update_events_stat_mirror (t : State) :
    ((update_events_stat t).setting_stat 6).st_size = head_sz (update_events_stat t).events := by
  rw [update_events_stat_size, update_events_stat_events]

theorem init_settings_mirror (env : Env) (tm : Int) (s : State) :
    ((init_settings env tm s).setting_stat 6).st_size = head_sz (init_settings env tm s).events := by
  unfold init_settings
  simp only
  exact update_events_stat_mirror _

theorem set_setting_stat_events (env : Env) (name val : CStr) (vallen : Nat) (s : State) :
    (set_setting env name val vallen s).2.setting_stat 6 = s.setting_stat 6 := by
  cases hid : get_setting_id name with
  | none => rw [set_setting_of_none env name val vallen s hid]
  | some id =>
    rw [set_setting_of_id env name val vallen s id hid]
    split
    · rename_i h0
      have hne : (6 : Fin SETTINGSCNT) ≠ id := by
        intro h6
        have := support_stat_ne_events id (setter_ok_support_stat id env val vallen s h0)
        exact this h6.symm
      simp only
      rw [Function.update_noteq hne, (setter_frame id env val vallen s).2.2.1]
    · rfl

theorem get_setting_mirror (name : CStr) (cap : Nat) (s : State)
    (h : (s.setting_stat 6).st_size = head_sz s.events) :
    ((get_setting name cap s).2.state.setting_stat 6).st_size
      = head_sz (get_setting name cap s).2.state.events := by
  by_cases he : name = "events".toList
  · subst he
    rw [get_setting_events]
    obtain ⟨t, ht⟩ := get_events_state s cap
    show ((get_events s cap).state.setting_stat 6).st_size = head_sz (get_events s cap).state.events
    rw [ht]
    exact update_events_stat_mirror t
  · cases hid : get_setting_id name with
    | none =>
      simp only [get_setting, hid]
      exact h
    | some id =>
      have hne : id ≠ 6 := by
        rintro rfl
        exact he ((get_setting_id_events name).1 hid)
      have hall : ∀ j : Fin SETTINGSCNT, j ≠ 6 → (settings j).support_stat = true := by decide
      simp only [get_setting, hid, getter_state id (hall id hne)]
      exact h

theorem reachable_events_mirror (env : Env) (s : State) (h : Reachable env s) :
    (s.setting_stat 6).st_size = head_sz s.events := by
  induction h with
  | init tm s0 => exact init_settings_mirror env tm s0
  | set_setting name val vallen s _ ih =>
    rw [set_setting_stat_events, set_setting_events]
    exact ih
  | get_setting name vallen s _ ih => exact get_setting_mirror name vallen s ih
  | event_writev iov tm s s1 _ hw _ =>
    rw [event_writev_some iov tm s s1 hw]
    exact update_events_stat_mirror _

/-- C14: the `st_size` of the row `events` (row 6, the one `get_setting_id`
finds for the name) is the remaining length of the head event, 0 for the
empty queue: after `init_settings`, after every `event_writev` that
returns (and it returns at every clock value for which `tm - 3600` does not
wrap `time_t`), and after `get_setting("events")` in each of its branches
(whole head, part of the head, empty queue), from any state; and so in
every state reached from `init_settings` by calls of the interface. -/
theorem events_size_mirrors_head (env : Env) (tm : Int) (iov : List (List Char)) (cap : Nat)
    (s : State) :
    get_setting_id "events".toList = some 6 ∧
    ((init_settings env tm s).setting_stat 6).st_size
      = head_sz (init_settings env tm s).events ∧
    (∀ s1, event_writev iov tm s = some s1 → (s1.setting_stat 6).st_size = head_sz s1.events) ∧
    (LONG_MIN + EVENT_EXPIRE ≤ tm → tm ≤ LONG_MAX →
      ∃ s1, event_writev iov tm s = some s1 ∧ (s1.setting_stat 6).st_size = head_sz s1.events) ∧
    ((get_setting "events".toList cap s).2.state.setting_stat 6).st_size
      = head_sz (get_setting "events".toList cap s).2.state.events ∧
    (Reachable env s → (s.setting_stat 6).st_size = head_sz s.events) := by
  refine ⟨by decide, init_settings_mirror env tm s, ?_, ?_, ?_,
    reachable_events_mirror env s⟩
  · intro s1 h
    rw [event_writev_some iov tm s s1 h]
    exact update_events_stat_mirror _
  · intro h1 h2
    exact ⟨_, event_writev_eq iov tm s h1 h2, update_events_stat_mirror _⟩
  · rw [get_setting_events]
    obtain ⟨t, ht⟩ := get_events_state s cap
    show ((get_events s cap).state.setting_stat 6).st_size
      = head_sz (get_events s cap).state.events
    rw [ht]
    exact update_events_stat_mirror t

/-! ## Getters and the capacity of the buffer -/

theorem snprintf_lu_length (size num : Nat) :
    (snprintf_lu size num).1.length ≤ size ∧
    (snprintf_lu size num).2 = (fmt_lu num).length + 1 := by
  unfold snprintf_lu
  constructor
  · by_cases h : size = 0
    · simp [h]
    · simp only [h, if_false, List.length_append, List.length_take, List.length_singleton]
      omega
  · simp

theorem get_setting_use_ssl (cap : Nat) (s : State) :
    get_setting "use_ssl".toList cap s
      = (0, ⟨s, [if s.fs_settings.usessl ≠ 0 then '1' else '0', '\n', Char.ofNat 0], 2⟩) := by
  have hid : get_setting_id "use_ssl".toList = some 5 := by decide
  simp only [get_setting, hid]
  rfl

/-- C15 (what the code does with a small buffer): `get_setting("use_ssl")`
stores 3 bytes and reports 2 whatever the capacity is, also 1 or 0;
`get_setting("page_size")` stores at most `cap` bytes but reports the
length of the whole text, digits and newline, whatever the capacity is:
with page size 4096 and capacity 2 it stores `4` and a NUL and reports 5. -/
theorem get_setting_small_buffer (cap : Nat) (s : State) :
    ((get_setting "use_ssl".toList cap s).2.data.length = 3 ∧
      (get_setting "use_ssl".toList cap s).2.sz = 2) ∧
    ((get_setting "page_size".toList cap s).2.data.length ≤ cap ∧
      (get_setting "page_size".toList cap s).2.sz = (fmt_lu s.fs_settings.pagesize).length + 1) ∧
    (let d : State :=
        ⟨⟨4096, 65536, 10, 20, 0, 1⟩, [], fun _ => none, fun _ => stat_zero, stat_zero, 0, 0⟩
      let g1 := get_setting "use_ssl".toList 1 d
      let g2 := get_setting "page_size".toList 2 d
      g1.2.data = ['1', '\n', Char.ofNat 0] ∧ g1.2.sz = 2 ∧
      g2.2.data = ['4', Char.ofNat 0] ∧ g2.2.sz = 5) := by
  refine ⟨?_, ?_, ?_⟩
  · rw [get_setting_use_ssl]
    exact ⟨rfl, rfl⟩
  · rw [get_setting_page_size]
    exact snprintf_lu_length cap s.fs_settings.pagesize
  · decide

/-! ## Lazy initialisation -/

theorem init_settings_stat_events (env : Env) (tm : Int) (s : State) :
    (init_settings env tm s).setting_stat 6 =
      { st_ctime := tm, st_mtime := tm, st_mode := S_IFREG_0644, st_nlink := 1,
        st_size := head_sz s.events, st_blocks := (head_sz s.events + 511) / 512,
        st_blksize := env.FS_BLOCK_SIZE, st_uid := env.myuid, st_gid := env.mygid } := by
  have hrows := init_rows_self env tm (List.finRange SETTINGSCNT) (List.nodup_finRange _)
    { s with setting_stat := fun _ => stat_zero, settings_stat := stat_zero } 6
    (List.mem_finRange 6)
  have hfs := init_rows_fs env tm (List.finRange SETTINGSCNT)
    { s with setting_stat := fun _ => stat_zero, settings_stat := stat_zero }
  unfold init_settings
  simp only
  rw [update_events_stat_eq]
  simp only [Function.update_same, hrows, hfs.2.1]
  cases s.events <;> rfl

theorem init_settings_dir (env : Env) (tm : Int) (s : State) :
    (init_settings env tm s).settings_stat =
      { st_ctime := tm, st_mtime := tm, st_mode := S_IFDIR_0755, st_nlink := 2,
        st_size := SETTINGSCNT, st_blocks := (SETTINGSCNT + 511) / 512,
        st_blksize := env.FS_BLOCK_SIZE, st_uid := env.myuid, st_gid := env.mygid } := by
  unfold init_settings
  simp only
  rw [update_events_stat_eq]

theorem init_settings_mode (env : Env) (tm : Int) (s : State) (i : Fin SETTINGSCNT) :
    ((init_settings env tm s).setting_stat i).st_mode = S_IFREG_0644 ∧
    ((init_settings env tm s).setting_stat i).st_nlink = 1 := by
  by_cases hi : i = 6
  · subst hi
    rw [init_settings_stat_events]
    exact ⟨rfl, rfl⟩
  · have hall : ∀ j : Fin SETTINGSCNT, j ≠ 6 → (settings j).support_stat = true := by decide
    rw [init_settings_stat env tm s i (hall i hi)]
    exact ⟨rfl, rfl⟩

theorem update_events_stat_names_init (s : State) :
    (update_events_stat s).names_init = s.names_init := by
  rw [update_events_stat_eq]

theorem get_setting_names_init (name : CStr) (cap : Nat) (s : State) :
    (get_setting name cap s).2.state.names_init = s.names_init := by
  cases hid : get_setting_id name with
  | none => simp only [get_setting, hid]
  | some id =>
    simp only [get_setting, hid]
    by_cases hsup : (settings id).support_stat = true
    · rw [getter_state id hsup]
    · have hall : ∀ j : Fin SETTINGSCNT, ¬ (settings j).support_stat = true → j = 6 := by
        decide
      have h6 : id = 6 := hall id hsup
      subst h6
      show (get_events s cap).state.names_init = s.names_init
      cases hq : s.events with
      | nil => rw [get_events_nil s cap hq, update_events_stat_names_init]
      | cons e rest =>
        rw [get_events_cons s cap e rest hq]
        by_cases h : e.sz ≤ cap
        · rw [if_pos h, update_events_stat_names_init]
        · rw [if_neg h, update_events_stat_names_init]

theorem set_setting_names_init (env : Env) (name val : CStr) (vallen : Nat) (s : State) :
    (set_setting env name val vallen s).2.names_init = s.names_init := by
  cases hid : get_setting_id name with
  | none => rw [set_setting_of_none env name val vallen s hid]
  | some id =>
    rw [set_setting_of_id env name val vallen s id hid]
    split
    · exact (setter_frame id env val vallen s).2.2.2.2
    · rfl

/-- C16 (as stated, refuted): from a state with `names_init = 0`,
`get_setting("page_size")` and a `set_setting("page_size", "2048")` that
returns 0 both end with `names_init = 0`: they never call `init_settings`. -/
theorem lazy_init_get_set_counterexample :
    (get_setting "page_size".toList 64
      ⟨⟨4096, 65536, 10, 20, 0, 0⟩, [], fun _ => none, fun _ => stat_zero, stat_zero, 0, 0⟩).2.state.names_init
      = 0 ∧
    (set_setting ⟨1073741824, 4096, 0, 0⟩ "page_size".toList "2048".toList 4
      ⟨⟨4096, 65536, 10, 20, 0, 0⟩, [], fun _ => none, fun _ => stat_zero, stat_zero, 0, 0⟩).1
      = 0 ∧
    (set_setting ⟨1073741824, 4096, 0, 0⟩ "page_size".toList "2048".toList 4
      ⟨⟨4096, 65536, 10, 20, 0, 0⟩, [], fun _ => none, fun _ => stat_zero, stat_zero, 0, 0⟩).2.names_init
      = 0 := by
  refine ⟨?_, ?_, ?_⟩ <;> decide

/-- C16 (amended): from the uninitialised state (`names_init = 0`) the first
call of `list_settings` or of `get_setting_stat` runs `init_settings`:
after it `names_init = 1`, every row's record has mode `S_IFREG | 0644` and
link count 1, the record of each of the six rows flagged `support_stat` has
the length its getter reports as size, and the directory record has link
count 2 and size 7. `get_setting` and `set_setting` leave `names_init` as
they find it. -/
theorem lazy_init_on_list_and_stat (env : Env) (tm : Int) (name : CStr) (s : State)
    (h0 : s.names_init = 0) :
    (list_settings env tm s).1 = init_settings env tm s ∧
    (get_setting_stat env tm name s).1 = init_settings env tm s ∧
    (init_settings env tm s).names_init = 1 ∧
    (∀ i, ((init_settings env tm s).setting_stat i).st_mode = S_IFREG_0644 ∧
      ((init_settings env tm s).setting_stat i).st_nlink = 1) ∧
    (∀ i, (settings i).support_stat = true → ∀ cap,
      ((init_settings env tm s).setting_stat i).st_size
        = ((settings i).get (init_settings env tm s) cap).sz) ∧
    (init_settings env tm s).settings_stat.st_nlink = 2 ∧
    (init_settings env tm s).settings_stat.st_size = 7 ∧
    (∀ (name1 : CStr) (cap : Nat), (get_setting name1 cap s).2.state.names_init = s.names_init) ∧
    (∀ (name1 val : CStr) (vallen : Nat),
      (set_setting env name1 val vallen s).2.names_init = s.names_init) := by
  refine ⟨?_, ?_, (init_settings_fs env tm s).2.2.1, init_settings_mode env tm s, ?_, ?_, ?_,
    fun name1 cap => get_setting_names_init name1 cap s,
    fun name1 val vallen => set_setting_names_init env name1 val vallen s⟩
  · simp only [list_settings, h0, if_true]
  · unfold get_setting_stat
    simp only [h0, if_true]
    cases name with
    | nil => rfl
    | cons c rest =>
      simp only
      cases get_setting_id rest <;> rfl
  · intro i hi cap
    exact reachable_stat_size env _ (Reachable.init tm s) i hi cap
  · rw [init_settings_dir]
  · rw [init_settings_dir]

theorem lazy_init_on_list_and_stat_witness :
    (⟨⟨4096, 65536, 10, 20, 0, 0⟩, [], fun _ => none, fun _ => stat_zero, stat_zero, 0, 0⟩ :
      State).names_init = 0 ∧
    (get_setting_stat ⟨1073741824, 4096, 0, 0⟩ 5 "/page_size".toList
      ⟨⟨4096, 65536, 10, 20, 0, 0⟩, [], fun _ => none, fun _ => stat_zero, stat_zero, 0, 0⟩).1
      = init_settings ⟨1073741824, 4096, 0, 0⟩ 5
        ⟨⟨4096, 65536, 10, 20, 0, 0⟩, [], fun _ => none, fun _ => stat_zero, stat_zero, 0, 0⟩ ∧
    (init_settings ⟨1073741824, 4096, 0, 0⟩ 5
      ⟨⟨4096, 65536, 10, 20, 0, 0⟩, [], fun _ => none, fun _ => stat_zero, stat_zero, 0, 0⟩).names_init
      = 1 :=
  have h := lazy_init_on_list_and_stat ⟨1073741824, 4096, 0, 0⟩ 5 "/page_size".toList
    ⟨⟨4096, 65536, 10, 20, 0, 0⟩, [], fun _ => none, fun _ => stat_zero, stat_zero, 0, 0⟩ rfl
  ⟨rfl, h.2.1, h.2.2.1⟩

/-! ## Text without a number -/

theorem strtol_digits_no_digit (l : CStr) (h : leading_digit l = false) :
    strtol_digits 0 l = 0 := by
  cases l with
  | nil => rfl
  | cons c cs =>
    have hc : isdigit c = false := h
    simp [strtol_digits, hc]

theorem atol_no_number (text : CStr) (h : begins_with_number text = false) : atol text = 0 := by
  unfold begins_with_number at h
  unfold atol
  cases hs : skip_space text with
  | nil => rfl
  | cons c cs =>
    rw [hs] at h
    simp only at h
    by_cases hm : c = '-'
    · have hl : leading_digit cs = false := by simpa [hm] using h
      simp [strtol_signed, hm, strtol_digits_no_digit cs hl, LONG_MIN]
    · by_cases hp : c = '+'
      · have hl : leading_digit cs = false := by simpa [hp] using h
        simp [strtol_signed, hp, strtol_digits_no_digit cs hl, LONG_MAX]
      · have hd : isdigit c = false := by simpa [hm, hp] using h
        have hl : leading_digit (c :: cs) = false := hd
        simp [strtol_signed, hm, hp, strtol_digits_no_digit (c :: cs) hl, LONG_MAX]

theorem set_setting_congr (env : Env) (name v1 v2 : CStr) (n1 n2 : Nat) (s : State)
    (id : Fin SETTINGSCNT) (hid : get_setting_id name = some id)
    (h : (settings id).set env v1 n1 s = (settings id).set env v2 n2 s) :
    set_setting env name v1 n1 s = set_setting env name v2 n2 s := by
  simp only [set_setting, hid, h]

theorem numeric_setter_atol (env : Env) (id : Fin SETTINGSCNT) (hid : id.val < 5)
    (v1 v2 : CStr) (n1 n2 : Nat) (s : State) (h : atol v1 = atol v2) :
    (settings id).set env v1 n1 s = (settings id).set env v2 n2 s := by
  have hcases : id = 0 ∨ id = 1 ∨ id = 2 ∨ id = 3 ∨ id = 4 := by
    revert hid
    revert id
    decide
  rcases hcases with rfl | rfl | rfl | rfl | rfl
  · show set_page_size env v1 n1 s = set_page_size env v2 n2 s
    simp only [set_page_size, h]
  · show set_cache_size env v1 n1 s = set_cache_size env v2 n2 s
    simp only [set_cache_size, h]
  · show set_readahead_min env v1 n1 s = set_readahead_min env v2 n2 s
    simp only [set_readahead_min, h]
  · show set_readahead_max env v1 n1 s = set_readahead_max env v2 n2 s
    simp only [set_readahead_max, h]
  · show set_readahead_max_sec env v1 n1 s = set_readahead_max_sec env v2 n2 s
    simp only [set_readahead_max_sec, h]

theorem set_setting_no_number_spec (env : Env) (name text : CStr) (n1 n2 : Nat) (s : State)
    (hname : name ∈ ["page_size".toList, "cache_size".toList, "readahead_min".toList,
      "readahead_max".toList, "readahead_max_sec".toList])
    (h : begins_with_number text = false) :
    set_setting env name text n1 s = set_setting env name "0".toList n2 s ∧
    (∀ (name1 val : CStr) (n : Nat) (t : State), get_setting_id name1 ≠ none →
      (set_setting env name1 val n t).1 = 0 ∨ (set_setting env name1 val n t).1 = -EINVAL) := by
  have hat : atol text = atol "0".toList := by
    rw [atol_no_number text h]
    decide
  constructor
  · simp only [List.mem_cons, List.mem_singleton, List.not_mem_nil, or_false] at hname
    rcases hname with rfl | rfl | rfl | rfl | rfl
    · exact set_setting_congr env _ _ _ n1 n2 s 0 (by decide)
        (numeric_setter_atol env 0 (by decide) _ _ n1 n2 s hat)
    · exact set_setting_congr env _ _ _ n1 n2 s 1 (by decide)
        (numeric_setter_atol env 1 (by decide) _ _ n1 n2 s hat)
    · exact set_setting_congr env _ _ _ n1 n2 s 2 (by decide)
        (numeric_setter_atol env 2 (by decide) _ _ n1 n2 s hat)
    · exact set_setting_congr env _ _ _ n1 n2 s 3 (by decide)
        (numeric_setter_atol env 3 (by decide) _ _ n1 n2 s hat)
    · exact set_setting_congr env _ _ _ n1 n2 s 4 (by decide)
        (numeric_setter_atol env 4 (by decide) _ _ n1 n2 s hat)
  · intro name1 val n t hne
    cases hid : get_setting_id name1 with
    | none => exact absurd hid hne
    | some id =>
      rw [set_setting_ret env name1 val n t id hid]
      exact setter_ret id env val n t

/-- C17: for each numeric setting (`page_size`, `cache_size`,
`readahead_min`, `readahead_max`, `readahead_max_sec`) and every text that
does not begin, after optional white space and an optional sign, with a
decimal digit, `set_setting(name, text)` gives the same result and the same
final state as `set_setting(name, "0")`; and for a name of the table
`set_setting` returns 0 or `-EINVAL`, never another error. -/
theorem permissive_numeric_parsing (env : Env) (name text : CStr) (n1 n2 : Nat) (s : State)
    (hname : name ∈ ["page_size".toList, "cache_size".toList, "readahead_min".toList,
      "readahead_max".toList, "readahead_max_sec".toList])
    (h : begins_with_number text = false) :
    set_setting env name text n1 s = set_setting env name "0".toList n2 s ∧
    (∀ (name1 val : CStr) (n : Nat) (t : State), get_setting_id name1 ≠ none →
      (set_setting env name1 val n t).1 = 0 ∨ (set_setting env name1 val n t).1 = -EINVAL) :=
  set_setting_no_number_spec env name text n1 n2 s hname h

theorem permissive_numeric_parsing_witness :
    "readahead_min".toList ∈ ["page_size".toList, "cache_size".toList, "readahead_min".toList,
      "readahead_max".toList, "readahead_max_sec".toList] ∧
    begins_with_number " -abc".toList = false ∧
    set_setting ⟨1073741824, 4096, 0, 0⟩ "readahead_min".toList " -abc".toList 5
      ⟨⟨4096, 65536, 10, 20, 0, 0⟩, [], fun _ => none, fun _ => stat_zero, stat_zero, 0, 0⟩
      = set_setting ⟨1073741824, 4096, 0, 0⟩ "readahead_min".toList "0".toList 1
        ⟨⟨4096, 65536, 10, 20, 0, 0⟩, [], fun _ => none, fun _ => stat_zero, stat_zero, 0, 0⟩ :=
  ⟨by decide, by decide,
    (permissive_numeric_parsing ⟨1073741824, 4096, 0, 0⟩ "readahead_min".toList " -abc".toList 5 1
      ⟨⟨4096, 65536, 10, 20, 0, 0⟩, [], fun _ => none, fun _ => stat_zero, stat_zero, 0, 0⟩
      (by decide) (by decide)).1⟩

/-! ## Time stamps in the queue -/

theorem get_setting_tm_sublist (name : CStr) (cap : Nat) (s : State) :
    ((get_setting name cap s).2.state.events.map event.tm).Sublist (s.events.map event.tm) := by
  by_cases h : name = "events".toList
  · subst h
    rw [get_setting_events]
    show ((get_events s cap).state.events.map event.tm).Sublist _
    rw [get_events_events]
    cases s.events with
    | nil => exact List.Sublist.refl _
    | cons e rest =>
      by_cases hc : e.sz ≤ cap
      · simp only [hc, if_true, List.map_cons]
        exact List.sublist_cons_self _ _
      · simp only [hc, if_false, List.map_cons]
        exact List.Sublist.refl _
  · rw [get_setting_events_other name cap s h]

theorem event_writev_tm_sublist (iov : List (List Char)) (tm : Int) (s s1 : State)
    (h : event_writev iov tm s = some s1) :
    (s1.events.map event.tm).Sublist (s.events.map event.tm ++ [tm]) := by
  rw [event_writev_events iov tm s s1 h, List.map_append]
  exact List.Sublist.append ((List.dropWhile_sublist _).map _) (List.Sublist.refl _)

/-- A run of calls returns when every clock value that its `event_writev`
calls read is one for which `tm-EVENT_EXPIRE` does not wrap. -/
theorem run_calls_total (env : Env) (calls : List call) (s : State)
    (hc : ∀ t ∈ call_times calls, LONG_MIN + EVENT_EXPIRE ≤ t ∧ t ≤ LONG_MAX) :
    ∃ out s1, run_calls env calls s = some (out, s1) := by
  induction calls generalizing s with
  | nil => exact ⟨[], s, rfl⟩
  | cons c cs ih =>
    cases c with
    | set_setting name val vallen => exact ih _ hc
    | get_setting name vallen =>
      obtain ⟨out, s1, hr⟩ := ih (get_setting name vallen s).2.state hc
      exact ⟨(if name = "events".toList then (get_setting name vallen s).2.data else []) ++ out,
        s1, by simp only [run_calls, hr]⟩
    | event_writev iov tm =>
      have htm := hc tm (List.mem_cons_self tm (call_times cs))
      have hcs : ∀ t ∈ call_times cs, LONG_MIN + EVENT_EXPIRE ≤ t ∧ t ≤ LONG_MAX :=
        fun t ht => hc t (List.mem_cons_of_mem tm ht)
      obtain ⟨out, s1, hr⟩ := ih (update_events_stat
        { s with events := s.events.dropWhile (expired tm) ++ [⟨iov_concat iov, tm⟩] }) hcs
      exact ⟨out, s1, by simp only [run_calls, event_writev_eq iov tm s htm.1 htm.2, hr]⟩

theorem run_calls_sorted (env : Env) (calls : List call) (s : State)
    (h : (s.events.map event.tm ++ call_times calls).Pairwise (fun a b => a ≤ b))
    (out : List Char) (s1 : State) (hr : run_calls env calls s = some (out, s1)) :
    (s1.events.map event.tm).Pairwise (fun a b => a ≤ b) := by
  induction calls generalizing s out with
  | nil =>
    simp only [run_calls, Option.some.injEq, Prod.mk.injEq] at hr
    rw [← hr.2]
    simpa [call_times] using h
  | cons c cs ih =>
    cases c with
    | set_setting name val vallen =>
      refine ih (set_setting env name val vallen s).2 ?_ out hr
      rw [set_setting_events]
      exact h
    | get_setting name vallen =>
      simp only [run_calls] at hr
      cases hrun : run_calls env cs (get_setting name vallen s).2.state with
      | none => simp [hrun] at hr
      | some r =>
        obtain ⟨o, t⟩ := r
        rw [hrun] at hr
        simp only [Option.some.injEq, Prod.mk.injEq] at hr
        refine ih (get_setting name vallen s).2.state ?_ o (by rw [hrun, hr.2])
        exact List.Pairwise.sublist
          (List.Sublist.append (get_setting_tm_sublist name vallen s) (List.Sublist.refl _)) h
    | event_writev iov tm =>
      simp only [run_calls] at hr
      cases hev : event_writev iov tm s with
      | none =>
        rw [hev] at hr
        exact absurd hr (by simp)
      | some t =>
        rw [hev] at hr
        refine ih t ?_ out hr
        have hsub := event_writev_tm_sublist iov tm s t hev
        have h2 : (s.events.map event.tm ++ [tm] ++ call_times cs).Pairwise
            (fun a b => a ≤ b) := by
          simpa [call_times] using h
        exact List.Pairwise.sublist (List.Sublist.append hsub (List.Sublist.refl _)) h2

theorem run_calls_sorted_spec (env : Env) (calls : List call) (s : State)
    (h : (s.events.map event.tm ++ call_times calls).Pairwise (fun a b => a ≤ b)) :
    (∀ out s1, run_calls env calls s = some (out, s1) →
      s1.events.Pairwise (fun a b => a.tm ≤ b.tm) ∧
      (∀ e rest, s1.events = e :: rest → ∀ x ∈ rest, e.tm ≤ x.tm)) ∧
    ((∀ t ∈ call_times calls, LONG_MIN + EVENT_EXPIRE ≤ t ∧ t ≤ LONG_MAX) →
      ∃ out s1, run_calls env calls s = some (out, s1) ∧
        s1.events.Pairwise (fun a b => a.tm ≤ b.tm) ∧
        (∀ e rest, s1.events = e :: rest → ∀ x ∈ rest, e.tm ≤ x.tm)) := by
  have hpart : ∀ out s1, run_calls env calls s = some (out, s1) →
      s1.events.Pairwise (fun a b => a.tm ≤ b.tm) ∧
      (∀ e rest, s1.events = e :: rest → ∀ x ∈ rest, e.tm ≤ x.tm) := by
    intro out s1 hr
    have hs := run_calls_sorted env calls s h out s1 hr
    have hp : s1.events.Pairwise (fun a b => a.tm ≤ b.tm) := List.pairwise_map.1 hs
    refine ⟨hp, ?_⟩
    intro e rest he x hx
    rw [he] at hp
    exact (List.pairwise_cons.1 hp).1 x hx
  refine ⟨hpart, ?_⟩
  intro hc
  obtain ⟨out, s1, hr⟩ := run_calls_total env calls s hc
  exact ⟨out, s1, hr, hpart out s1 hr⟩

/-- C18: if the time stamps already in the queue followed by the clock values
that the successive `event_writev` calls read are non-decreasing, then
after any run of calls that returns (`event_writev`, `get_setting`, also of
`events` in both of its branches, `set_setting`) the time stamps in the
queue are non-decreasing from head to tail, so the head is the oldest
entry; and the run does return when every clock value is one for which
`tm - 3600` does not wrap `time_t` (`LONG_MIN + 3600 <= tm <= LONG_MAX`, as
every value `time` returns). -/
theorem timestamps_non_decreasing (env : Env) (calls : List call) (s : State)
    (h : (s.events.map event.tm ++ call_times calls).Pairwise (fun a b => a ≤ b)) :
    (∀ out s1, run_calls env calls s = some (out, s1) →
      s1.events.Pairwise (fun a b => a.tm ≤ b.tm) ∧
      (∀ e rest, s1.events = e :: rest → ∀ x ∈ rest, e.tm ≤ x.tm)) ∧
    ((∀ t ∈ call_times calls, LONG_MIN + EVENT_EXPIRE ≤ t ∧ t ≤ LONG_MAX) →
      ∃ out s1, run_calls env calls s = some (out, s1) ∧
        s1.events.Pairwise (fun a b => a.tm ≤ b.tm) ∧
        (∀ e rest, s1.events = e :: rest → ∀ x ∈ rest, e.tm ≤ x.tm)) :=
  run_calls_sorted_spec env calls s h

theorem timestamps_non_decreasing_witness :
    (List.map event.tm
        (⟨⟨4096, 65536, 10, 20, 0, 0⟩, [], fun _ => none, fun _ => stat_zero, stat_zero, 0, 0⟩ :
          State).events
      ++ call_times [call.event_writev ["ab".toList] 10, call.event_writev ["xyz".toList] 20,
        call.get_setting "events".toList 1, call.event_writev ["Q".toList] 20]).Pairwise
      (fun a b => a ≤ b) ∧
    (∀ t ∈ call_times [call.event_writev ["ab".toList] 10, call.event_writev ["xyz".toList] 20,
        call.get_setting "events".toList 1, call.event_writev ["Q".toList] 20],
      LONG_MIN + EVENT_EXPIRE ≤ t ∧ t ≤ LONG_MAX) ∧
    ∃ out s1,
      run_calls ⟨1073741824, 4096, 0, 0⟩
        [call.event_writev ["ab".toList] 10, call.event_writev ["xyz".toList] 20,
          call.get_setting "events".toList 1, call.event_writev ["Q".toList] 20]
        ⟨⟨4096, 65536, 10, 20, 0, 0⟩, [], fun _ => none, fun _ => stat_zero, stat_zero, 0, 0⟩
        = some (out, s1) ∧
      s1.events.Pairwise (fun a b => a.tm ≤ b.tm) :=
  have h := (timestamps_non_decreasing ⟨1073741824, 4096, 0, 0⟩
    [call.event_writev ["ab".toList] 10, call.event_writev ["xyz".toList] 20,
      call.get_setting "events".toList 1, call.event_writev ["Q".toList] 20]
    ⟨⟨4096, 65536, 10, 20, 0, 0⟩, [], fun _ => none, fun _ => stat_zero, stat_zero, 0, 0⟩
    (by decide)).2 (by decide)
  ⟨by decide, by decide, h.elim (fun out h1 => h1.elim (fun s1 h2 => ⟨out, s1, h2.1, h2.2.1⟩))⟩

/-! ## What `set_setting` writes -/

theorem set_setting_fail_spec (env : Env) (name val : CStr) (vallen : Nat) (s : State)
    (h : (set_setting env name val vallen s).1 ≠ 0) :
    (set_setting env name val vallen s).2 = s ∧
    ((set_setting env name val vallen s).1 = -EINVAL ∨
      (set_setting env name val vallen s).1 = -ENOENT) := by
  cases hid : get_setting_id name with
  | none =>
    rw [set_setting_of_none env name val vallen s hid]
    exact ⟨rfl, Or.inr rfl⟩
  | some id =>
    rw [set_setting_of_id env name val vallen s id hid] at h ⊢
    split
    · rename_i h0
      rw [if_pos h0] at h
      exact absurd rfl h
    · exact ⟨rfl, Or.inl rfl⟩

/-- C19: if `set_setting` returns a non-zero result, which is then `-EINVAL`
or `-ENOENT`, the state after the call is the state before it: the six
live parameters, every row's metadata record, the directory metadata and
the event queue are the same. -/
theorem set_setting_failure_is_atomic (env : Env) (name val : CStr) (vallen : Nat) (s : State)
    (h : (set_setting env name val vallen s).1 ≠ 0) :
    (set_setting env name val vallen s).2 = s ∧
    ((set_setting env name val vallen s).1 = -EINVAL ∨
      (set_setting env name val vallen s).1 = -ENOENT) :=
  set_setting_fail_spec env name val vallen s h

theorem set_setting_failure_is_atomic_witness :
    (set_setting ⟨1073741824, 4096, 0, 0⟩ "cache_size".toList "100".toList 3
      ⟨⟨4096, 65536, 10, 20, 0, 0⟩, [⟨"ev".toList, 7⟩], fun _ => none, fun _ => stat_zero,
        stat_zero, 0, 0⟩).1 ≠ 0 ∧
    (set_setting ⟨1073741824, 4096, 0, 0⟩ "cache_size".toList "100".toList 3
      ⟨⟨4096, 65536, 10, 20, 0, 0⟩, [⟨"ev".toList, 7⟩], fun _ => none, fun _ => stat_zero,
        stat_zero, 0, 0⟩).2
      = ⟨⟨4096, 65536, 10, 20, 0, 0⟩, [⟨"ev".toList, 7⟩], fun _ => none, fun _ => stat_zero,
        stat_zero, 0, 0⟩ :=
  ⟨by decide,
    (set_setting_failure_is_atomic ⟨1073741824, 4096, 0, 0⟩ "cache_size".toList "100".toList 3
      ⟨⟨4096, 65536, 10, 20, 0, 0⟩, [⟨"ev".toList, 7⟩], fun _ => none, fun _ => stat_zero,
        stat_zero, 0, 0⟩ (by decide)).1⟩

theorem set_setting_stat_other (env : Env) (name val : CStr) (vallen : Nat) (s : State)
    (j : Fin SETTINGSCNT) (hj : get_setting_id name ≠ some j) :
    (set_setting env name val vallen s).2.setting_stat j = s.setting_stat j := by
  cases hid : get_setting_id name with
  | none => rw [set_setting_of_none env name val vallen s hid]
  | some id =>
    have hne : j ≠ id := by
      rintro rfl
      exact hj hid
    rw [set_setting_of_id env name val vallen s id hid]
    split
    · simp only
      rw [Function.update_noteq hne, (setter_frame id env val vallen s).2.2.1]
    · rfl

theorem set_setting_stat_self (env : Env) (name val : CStr) (vallen : Nat) (s : State)
    (j : Fin SETTINGSCNT) (hj : get_setting_id name = some j) :
    (set_setting env name val vallen s).2.setting_stat j =
      { (s.setting_stat j) with
        st_size := ((set_setting env name val vallen s).2.setting_stat j).st_size,
        st_blocks := ((set_setting env name val vallen s).2.setting_stat j).st_blocks } := by
  rw [set_setting_of_id env name val vallen s j hj]
  split
  · simp only [Function.update_same, (setter_frame j env val vallen s).2.2.1]
  · rfl

theorem set_setting_rest (env : Env) (name val : CStr) (vallen : Nat) (s : State) :
    (set_setting env name val vallen s).2.events = s.events ∧
    (set_setting env name val vallen s).2.settings_stat = s.settings_stat ∧
    (set_setting env name val vallen s).2.setting_names = s.setting_names ∧
    (set_setting env name val vallen s).2.names_init = s.names_init := by
  refine ⟨set_setting_events env name val vallen s, ?_, ?_,
    set_setting_names_init env name val vallen s⟩
  · cases hid : get_setting_id name with
    | none => rw [set_setting_of_none env name val vallen s hid]
    | some id =>
      rw [set_setting_of_id env name val vallen s id hid]
      split
      · exact (setter_frame id env val vallen s).2.2.2.1
      · rfl
  · cases hid : get_setting_id name with
    | none => rw [set_setting_of_none env name val vallen s hid]
    | some id =>
      rw [set_setting_of_id env name val vallen s id hid]
      split
      · exact (setter_frame id env val vallen s).2.1
      · rfl

theorem set_setting_params (env : Env) (val : CStr) (vallen : Nat) (s : State) :
    (set_setting env "page_size".toList val vallen s).2.fs_settings
      = { s.fs_settings with
          pagesize := (set_setting env "page_size".toList val vallen s).2.fs_settings.pagesize } ∧
    (set_setting env "cache_size".toList val vallen s).2.fs_settings
      = { s.fs_settings with
          cachesize := (set_setting env "cache_size".toList val vallen s).2.fs_settings.cachesize } ∧
    (set_setting env "readahead_min".toList val vallen s).2.fs_settings
      = { s.fs_settings with
          readaheadmin :=
            (set_setting env "readahead_min".toList val vallen s).2.fs_settings.readaheadmin } ∧
    (set_setting env "readahead_max".toList val vallen s).2.fs_settings
      = { s.fs_settings with
          readaheadmax :=
            (set_setting env "readahead_max".toList val vallen s).2.fs_settings.readaheadmax } ∧
    (set_setting env "readahead_max_sec".toList val vallen s).2.fs_settings
      = { s.fs_settings with
          readaheadmaxsec :=
            (set_setting env "readahead_max_sec".toList val vallen s).2.fs_settings.readaheadmaxsec } ∧
    (set_setting env "use_ssl".toList val vallen s).2.fs_settings
      = { s.fs_settings with
          usessl := (set_setting env "use_ssl".toList val vallen s).2.fs_settings.usessl } := by
  refine ⟨?_, ?_, ?_, ?_, ?_, ?_⟩
  · rw [set_setting_fs env _ val vallen s 0 (by decide)]
    show (set_page_size env val vallen s).2.fs_settings
      = { s.fs_settings with pagesize := (set_page_size env val vallen s).2.fs_settings.pagesize }
    rw [set_page_size_eq]
    split <;> rfl
  · rw [set_setting_fs env _ val vallen s 1 (by decide)]
    show (set_cache_size env val vallen s).2.fs_settings
      = { s.fs_settings with cachesize := (set_cache_size env val vallen s).2.fs_settings.cachesize }
    rw [set_cache_size_eq]
    split <;> rfl
  · rw [set_setting_fs env _ val vallen s 2 (by decide)]
    show (set_readahead_min env val vallen s).2.fs_settings
      = { s.fs_settings with readaheadmin := (set_readahead_min env val vallen s).2.fs_settings.readaheadmin }
    rw [set_readahead_min_eq]
    split <;> rfl
  · rw [set_setting_fs env _ val vallen s 3 (by decide)]
    show (set_readahead_max env val vallen s).2.fs_settings
      = { s.fs_settings with readaheadmax := (set_readahead_max env val vallen s).2.fs_settings.readaheadmax }
    rw [set_readahead_max_eq]
    split <;> rfl
  · rw [set_setting_fs env _ val vallen s 4 (by decide)]
    rfl
  · rw [set_setting_fs env _ val vallen s 5 (by decide)]
    rfl

/-- C20: a `set_setting` of a scalar setting, successful or not, changes at
most the live parameter the name stands for (the other five are as
before) and, in the metadata, at most `st_size` and `st_blocks` of the
record of that name; the record of every other row, also of `events`, the
directory record, the event queue, the name array and `names_init` are as
before (the only other effect is the signal to `reset_cache`, counted in
`cache_resets`). A `get_setting` of a scalar setting returns 0 and leaves
the state as it is. -/
theorem set_setting_frame (env : Env) (val : CStr) (vallen : Nat) (s : State) :
    ((set_setting env "page_size".toList val vallen s).2.fs_settings
        = { s.fs_settings with
            pagesize := (set_setting env "page_size".toList val vallen s).2.fs_settings.pagesize } ∧
      (set_setting env "cache_size".toList val vallen s).2.fs_settings
        = { s.fs_settings with
            cachesize :=
              (set_setting env "cache_size".toList val vallen s).2.fs_settings.cachesize } ∧
      (set_setting env "readahead_min".toList val vallen s).2.fs_settings
        = { s.fs_settings with
            readaheadmin :=
              (set_setting env "readahead_min".toList val vallen s).2.fs_settings.readaheadmin } ∧
      (set_setting env "readahead_max".toList val vallen s).2.fs_settings
        = { s.fs_settings with
            readaheadmax :=
              (set_setting env "readahead_max".toList val vallen s).2.fs_settings.readaheadmax } ∧
      (set_setting env "readahead_max_sec".toList val vallen s).2.fs_settings
        = { s.fs_settings with
            readaheadmaxsec :=
              (set_setting env "readahead_max_sec".toList val vallen
                s).2.fs_settings.readaheadmaxsec } ∧
      (set_setting env "use_ssl".toList val vallen s).2.fs_settings
        = { s.fs_settings with
            usessl := (set_setting env "use_ssl".toList val vallen s).2.fs_settings.usessl }) ∧
    (∀ (name : CStr) (j : Fin SETTINGSCNT), get_setting_id name ≠ some j →
      (set_setting env name val vallen s).2.setting_stat j = s.setting_stat j) ∧
    (∀ (name : CStr) (j : Fin SETTINGSCNT), get_setting_id name = some j →
      (set_setting env name val vallen s).2.setting_stat j =
        { (s.setting_stat j) with
          st_size := ((set_setting env name val vallen s).2.setting_stat j).st_size,
          st_blocks := ((set_setting env name val vallen s).2.setting_stat j).st_blocks }) ∧
    (∀ name : CStr,
      (set_setting env name val vallen s).2.events = s.events ∧
      (set_setting env name val vallen s).2.settings_stat = s.settings_stat ∧
      (set_setting env name val vallen s).2.setting_names = s.setting_names ∧
      (set_setting env name val vallen s).2.names_init = s.names_init) ∧
    (∀ (j : Fin SETTINGSCNT) (cap : Nat), (settings j).support_stat = true →
      (get_setting (settings j).name cap s).1 = 0 ∧
      (get_setting (settings j).name cap s).2.state = s) := by
  refine ⟨set_setting_params env val vallen s,
    fun name j hj => set_setting_stat_other env name val vallen s j hj,
    fun name j hj => set_setting_stat_self env name val vallen s j hj,
    fun name => set_setting_rest env name val vallen s, ?_⟩
  intro j cap hj
  rw [get_setting_of_row]
  exact ⟨rfl, getter_state j hj s cap⟩

end Pfs
